import Mathlib

/-!
Verification of the Ticket Rescue event-matching backend
(`src/backend/src/server.js`, newest revision in the file).

Strings are modelled as lists of characters (`Str`).  JavaScript's
Unicode-dependent primitives (`toLowerCase`, `toUpperCase`, NFKD
decomposition) are modelled at the ASCII / combining-mark level, which is
faithful on the ASCII event data this service processes: NFKD is the
identity on ASCII text, and `toLowerCase` is the ASCII case map there.
Regular-expression passes from the source are modelled as explicit
character scanners with JavaScript's leftmost-first alternation and
word-boundary (`\b`) semantics.
-/

/-- Strings, modelled as lists of characters. -/
abbrev Str := List Char

/-- The character list of a Lean string literal. -/
def chars (s : String) : Str := s.data

/-- JS regex `\s` / `String.prototype.trim` whitespace, modelled by the ASCII
whitespace characters (space, tab, LF, VT, FF, CR) and NBSP. -/
def isWs (c : Char) : Bool :=
  c.toNat = 32 || c.toNat = 9 || c.toNat = 10 || c.toNat = 11 ||
  c.toNat = 12 || c.toNat = 13 || c.toNat = 160

/-- ASCII digit `0`-`9`. -/
def isDigitCh (c : Char) : Bool := 48 ≤ c.toNat && c.toNat ≤ 57

/-- ASCII lowercase letter `a`-`z`. -/
def isLowerCh (c : Char) : Bool := 97 ≤ c.toNat && c.toNat ≤ 122

/-- ASCII uppercase letter `A`-`Z`. -/
def isUpperCh (c : Char) : Bool := 65 ≤ c.toNat && c.toNat ≤ 90

/-- ASCII letter. -/
def isAlphaCh (c : Char) : Bool := isLowerCh c || isUpperCh c

/-- JS regex `\w` word character: letter, digit or underscore (`_`), as used
by the word-boundary assertion `\b`. -/
def isWordCh (c : Char) : Bool := isAlphaCh c || isDigitCh c || c.toNat = 95

/-- `String.prototype.toLowerCase`, modelled on the ASCII range. -/
def jsLower (c : Char) : Char :=
  if isUpperCh c then Char.ofNat (c.toNat + 32) else c

/-- `String.prototype.toUpperCase`, modelled on the ASCII range. -/
def jsUpper (c : Char) : Char :=
  if isLowerCh c then Char.ofNat (c.toNat - 32) else c

/-- Lowercase an entire string. -/
def lowerStr (l : Str) : Str := l.map jsLower

/-- Uppercase an entire string. -/
def upperStr (l : Str) : Str := l.map jsUpper

/-- `normText`'s `.normalize("NFKD").replace(/[̀-ͯ]/g, "")`:
the combining marks U+0300-U+036F are removed; the NFKD decomposition
itself is modelled as the identity (it is the identity on ASCII text). -/
def stripMarks (l : Str) : Str := l.filter (fun c => !(768 ≤ c.toNat && c.toNat ≤ 879))

/-- `normText`'s `.replace(/[^a-z0-9\s]/g, " ")`. -/
def punctToSpace (l : Str) : Str :=
  l.map (fun c => if isLowerCh c || isDigitCh c || isWs c then c else ' ')

/-- `.replace(/\s+/g, " ")`: every maximal whitespace run becomes a single
space.  The Boolean flag records whether the previous character was
whitespace (i.e. whether we are inside a run that already emitted its space). -/
def collapseWsAux : Bool → Str → Str
  | _, [] => []
  | prevWs, c :: cs =>
    if isWs c then
      if prevWs then collapseWsAux true cs else ' ' :: collapseWsAux true cs
    else c :: collapseWsAux false cs

/-- `.replace(/\s+/g, " ")` on a whole string. -/
def collapseWs (l : Str) : Str := collapseWsAux false l

/-- `String.prototype.trim`. -/
def trimStr (l : Str) : Str :=
  ((l.dropWhile isWs).reverse.dropWhile isWs).reverse

/-- The processing pipeline of `normText` (server.js:228) on a truthy string:
lowercase, NFKD + strip combining marks, map non-alphanumerics to spaces,
collapse whitespace runs, trim. -/
def normBody (l : Str) : Str :=
  trimStr (collapseWs (punctToSpace (stripMarks (lowerStr l))))

/-- `normText` (server.js:228-237).  A JS falsy argument (`null`, `""`)
yields `null`; any other string is sent through the pipeline. -/
def normText : Option Str → Option Str
  | none => none
  | some l => if l = [] then none else some (normBody l)

/-! ### Canonical characters and idempotence of `normText` -/

/-- Characters that can appear in the output of `normBody`:
lowercase ASCII letters, ASCII digits, and the space. -/
def isCanonCh (c : Char) : Bool := isLowerCh c || isDigitCh c || c.toNat = 32

/-- Characters surviving `punctToSpace`: canonical characters or whitespace. -/
def isCleanCh (c : Char) : Bool := isLowerCh c || isDigitCh c || isWs c

theorem canon_of_clean_not_ws {c : Char} (h : isCleanCh c = true) (hw : isWs c = false) :
    isCanonCh c = true := by
  simp [isCleanCh, isLowerCh, isDigitCh, isWs] at h hw
  simp [isCanonCh, isLowerCh, isDigitCh]
  omega

theorem canon_space : isCanonCh ' ' = true := by decide

theorem char_eq_of_toNat_eq {c d : Char} (h : c.toNat = d.toNat) : c = d :=
  Char.eq_of_val_eq (UInt32.eq_of_toBitVec_eq (BitVec.eq_of_toNat_eq h))

theorem ws_of_canon_space {c : Char} (h : isCanonCh c = true) :
    isWs c = true → c = ' ' := by
  intro hw
  simp [isCanonCh, isLowerCh, isDigitCh] at h
  simp [isWs] at hw
  have ht : c.toNat = 32 := by omega
  exact char_eq_of_toNat_eq (by rw [ht]; rfl)

theorem canon_not_ws_ne_space {c : Char} (h : isWs c = false) : ¬(c = ' ') := by
  intro hc
  subst hc
  simp [isWs] at h

/-- Characters of `punctToSpace` output are clean. -/
theorem clean_punctToSpace (l : Str) : ∀ c ∈ punctToSpace l, isCleanCh c = true := by
  intro c hc
  simp only [punctToSpace, List.mem_map] at hc
  obtain ⟨a, _, ha⟩ := hc
  by_cases h : (isLowerCh a || isDigitCh a || isWs a) = true
  · rw [if_pos h] at ha
    subst ha
    exact h
  · rw [if_neg h] at ha
    subst ha
    decide

/-- Characters of `collapseWsAux` output on clean input are canonical. -/
theorem canon_collapseWsAux (l : Str) (hl : ∀ c ∈ l, isCleanCh c = true) :
    ∀ flag, ∀ c ∈ collapseWsAux flag l, isCanonCh c = true := by
  induction l with
  | nil => intro flag c hc; simp [collapseWsAux] at hc
  | cons a t ih =>
    intro flag c hc
    have ha : isCleanCh a = true := hl a (List.mem_cons_self a t)
    have ht : ∀ c ∈ t, isCleanCh c = true := fun c hc => hl c (List.mem_cons_of_mem a hc)
    by_cases hw : isWs a = true
    · simp only [collapseWsAux, hw, if_pos] at hc
      by_cases hf : flag
      · subst hf; simp at hc; exact ih ht true c hc
      · simp [hf] at hc
        rcases hc with hc | hc
        · subst hc; exact canon_space
        · exact ih ht true c hc
    · simp only [collapseWsAux, hw] at hc
      simp at hc
      rcases hc with hc | hc
      · subst hc; exact canon_of_clean_not_ws ha (by simpa using hw)
      · exact ih ht false c hc

/-- Membership in `trimStr` output implies membership in the input. -/
theorem mem_of_mem_trimStr {c : Char} {l : Str} (h : c ∈ trimStr l) : c ∈ l := by
  simp only [trimStr, List.mem_reverse] at h
  have h1 := (List.dropWhile_sublist (l := (l.dropWhile isWs).reverse) (p := isWs)).mem h
  rw [List.mem_reverse] at h1
  exact (List.dropWhile_sublist (l := l) (p := isWs)).mem h1

/-- Characters of `normBody` output are canonical. -/
theorem canon_normBody (l : Str) : ∀ c ∈ normBody l, isCanonCh c = true := by
  intro c hc
  have h1 : c ∈ collapseWs (punctToSpace (stripMarks (lowerStr l))) :=
    mem_of_mem_trimStr hc
  exact canon_collapseWsAux _ (clean_punctToSpace _) false c h1

/-- No two adjacent spaces. -/
def NoDbl (l : Str) : Prop := l.Chain' (fun a b => ¬(a = ' ' ∧ b = ' '))

theorem collapseWsAux_cons_ws_true {a : Char} {t : Str} (hw : isWs a = true) :
    collapseWsAux true (a :: t) = collapseWsAux true t := by
  simp [collapseWsAux, hw]

theorem collapseWsAux_cons_ws_false {a : Char} {t : Str} (hw : isWs a = true) :
    collapseWsAux false (a :: t) = ' ' :: collapseWsAux true t := by
  simp [collapseWsAux, hw]

theorem collapseWsAux_cons_not_ws {a : Char} {t : Str} (flag : Bool) (hw : isWs a = false) :
    collapseWsAux flag (a :: t) = a :: collapseWsAux false t := by
  simp [collapseWsAux, hw]

theorem head_collapseWsAux_true (l : Str) :
    ∀ c, (collapseWsAux true l).head? = some c → isWs c = false := by
  induction l with
  | nil => intro c hc; simp [collapseWsAux] at hc
  | cons a t ih =>
    intro c hc
    by_cases hw : isWs a = true
    · rw [collapseWsAux_cons_ws_true hw] at hc
      exact ih c hc
    · rw [collapseWsAux_cons_not_ws true (by simpa using hw)] at hc
      simp at hc
      rw [← hc]
      simpa using hw

theorem nodbl_collapseWsAux (l : Str) : ∀ flag, NoDbl (collapseWsAux flag l) := by
  induction l with
  | nil => intro flag; simp [collapseWsAux, NoDbl]
  | cons a t ih =>
    intro flag
    by_cases hw : isWs a = true
    · cases flag
      · rw [NoDbl, collapseWsAux_cons_ws_false hw, List.chain'_cons']
        refine ⟨?_, ih true⟩
        rintro h hh ⟨-, hsp⟩
        have := head_collapseWsAux_true t h hh
        subst hsp
        simp [isWs] at this
      · rw [NoDbl, collapseWsAux_cons_ws_true hw]
        exact ih true
    · rw [NoDbl, collapseWsAux_cons_not_ws flag (by simpa using hw), List.chain'_cons']
      refine ⟨?_, ih false⟩
      rintro h _ ⟨hsp, -⟩
      subst hsp
      simp [isWs] at hw

theorem nodbl_trimStr {l : Str} (h : NoDbl l) : NoDbl (trimStr l) := by
  rw [NoDbl] at h ⊢
  rw [trimStr, List.chain'_reverse]
  have h1 : List.Chain' (fun a b => ¬(a = ' ' ∧ b = ' ')) (l.dropWhile isWs) :=
    h.suffix (List.dropWhile_suffix isWs)
  have h2 : List.Chain' (flip fun a b => ¬(a = ' ' ∧ b = ' ')) (l.dropWhile isWs).reverse := by
    rw [List.chain'_reverse]
    exact h1.imp (fun a b hab => hab)
  exact h2.suffix (List.dropWhile_suffix isWs)

theorem getLast?_of_suffix {w l : Str} (h : w <:+ l) (hne : w ≠ []) :
    w.getLast? = l.getLast? := by
  obtain ⟨u, hu⟩ := h
  rw [← hu, List.getLast?_append_of_ne_nil u hne]

theorem head_trimStr_not_ws (x : Str) :
    ∀ c, (trimStr x).head? = some c → isWs c = false := by
  intro c hc
  rw [trimStr, List.head?_reverse] at hc
  by_cases hne : (x.dropWhile isWs).reverse.dropWhile isWs = []
  · rw [hne] at hc; simp at hc
  · rw [getLast?_of_suffix (List.dropWhile_suffix isWs) hne, List.getLast?_reverse] at hc
    have := List.head?_dropWhile_not isWs x
    rw [hc] at this
    exact this

theorem last_trimStr_not_ws (x : Str) :
    ∀ c, (trimStr x).getLast? = some c → isWs c = false := by
  intro c hc
  rw [trimStr, List.getLast?_reverse] at hc
  have := List.head?_dropWhile_not isWs (x.dropWhile isWs).reverse
  rw [hc] at this
  exact this

theorem dropWhile_eq_self_of_head (p : α → Bool) (l : List α)
    (h : ∀ c, l.head? = some c → p c = false) : l.dropWhile p = l := by
  cases l with
  | nil => rfl
  | cons a t =>
    have := h a rfl
    simp [List.dropWhile, this]

theorem trimStr_fix (l : Str)
    (hh : ∀ c, l.head? = some c → isWs c = false)
    (hl : ∀ c, l.getLast? = some c → isWs c = false) : trimStr l = l := by
  rw [trimStr]
  rw [dropWhile_eq_self_of_head isWs l hh]
  rw [dropWhile_eq_self_of_head isWs l.reverse (by
    intro c hc
    rw [List.head?_reverse] at hc
    exact hl c hc)]
  exact List.reverse_reverse l

theorem map_id_of_mem {f : α → α} {l : List α} (h : ∀ a ∈ l, f a = a) : l.map f = l := by
  induction l with
  | nil => rfl
  | cons a t ih =>
    simp only [List.map_cons]
    rw [h a (List.mem_cons_self a t), ih (fun b hb => h b (List.mem_cons_of_mem a hb))]

theorem jsLower_fix {c : Char} (h : isCanonCh c = true) : jsLower c = c := by
  have hne : ¬(isUpperCh c = true) := by
    intro hu
    simp [isCanonCh, isLowerCh, isDigitCh] at h
    simp [isUpperCh] at hu
    omega
  rw [jsLower, if_neg hne]

theorem lowerStr_fix {l : Str} (h : ∀ c ∈ l, isCanonCh c = true) : lowerStr l = l :=
  map_id_of_mem (fun c hc => jsLower_fix (h c hc))

theorem stripMarks_fix {l : Str} (h : ∀ c ∈ l, isCanonCh c = true) : stripMarks l = l := by
  rw [stripMarks, List.filter_eq_self]
  intro c hc
  have := h c hc
  simp [isCanonCh, isLowerCh, isDigitCh] at this
  simp
  omega

theorem punctToSpace_fix {l : Str} (h : ∀ c ∈ l, isCanonCh c = true) : punctToSpace l = l := by
  rw [punctToSpace]
  apply map_id_of_mem
  intro c hc
  have hcm := h c hc
  rw [if_pos]
  simp only [isCanonCh, Bool.or_eq_true] at hcm
  rcases hcm with (hcm | hcm) | hcm
  · simp [hcm]
  · simp [hcm]
  · simp [isWs, hcm]

theorem collapseWs_fix : ∀ (l : Str), (∀ c ∈ l, isCanonCh c = true) → NoDbl l →
    ∀ flag, (flag = true → l.head? ≠ some ' ') → collapseWsAux flag l = l := by
  intro l
  induction l with
  | nil => intro _ _ flag _; rfl
  | cons a t ih =>
    intro hcanon hnd flag hflag
    have hat : ∀ c ∈ t, isCanonCh c = true := fun c hc => hcanon c (List.mem_cons_of_mem a hc)
    have hndt : NoDbl t := (List.chain'_cons'.mp hnd).2
    by_cases hw : isWs a = true
    · have ha : a = ' ' := ws_of_canon_space (hcanon a (List.mem_cons_self a t)) hw
      cases flag
      · rw [collapseWsAux_cons_ws_false hw, ha]
        congr 1
        apply ih hat hndt true
        intro _ hht
        have hpair := (List.chain'_cons'.mp hnd).1
        rcases ht : t.head? with _ | b
        · rw [ht] at hht; simp at hht
        · rw [ht] at hht
          have hb := hpair b ht
          rw [ha] at hb
          have : b = ' ' := by injection hht
          exact hb ⟨rfl, this⟩
      · exact absurd (by rw [ha]; rfl) (hflag rfl)
    · rw [collapseWsAux_cons_not_ws flag (by simpa using hw)]
      congr 1
      exact ih hat hndt false (by simp)

theorem normBody_fix (l : Str)
    (hcanon : ∀ c ∈ l, isCanonCh c = true) (hnd : NoDbl l)
    (hh : ∀ c, l.head? = some c → isWs c = false)
    (hl : ∀ c, l.getLast? = some c → isWs c = false) : normBody l = l := by
  rw [normBody, lowerStr_fix hcanon, stripMarks_fix hcanon, punctToSpace_fix hcanon]
  rw [collapseWs, collapseWs_fix l hcanon hnd false (by simp)]
  exact trimStr_fix l hh hl

/-- The `normText` pipeline body is idempotent on every string. -/
theorem normBody_idem (l : Str) : normBody (normBody l) = normBody l := by
  apply normBody_fix
  · exact canon_normBody l
  · exact nodbl_trimStr (nodbl_collapseWsAux _ false)
  · exact head_trimStr_not_ws _
  · exact last_trimStr_not_ws _

/-- C7 counterexample: the claim "for every input x, normalize(normalize(x))
equals normalize(x)" is false at the input `"!!!"`: `normText "!!!"` is the
empty string (a truthy pipeline input mapping to `""`), but re-normalizing
the empty string yields `null`. -/
theorem C7_normText_idempotent_counterexample :
    ¬ (normText (normText (some (chars "!!!"))) = normText (some (chars "!!!"))) := by
  decide

/-- C7 (amended): `normText` is total over all string inputs — `null` and the
empty string yield `null` — and idempotent on every input whose normalization
is not the empty string; an input normalizing to `""` re-normalizes to `null`. -/
theorem C7_normText_idempotent :
    normText none = none ∧ normText (some (chars "")) = none ∧
    ∀ x : Option Str, normText x ≠ some (chars "") →
      normText (normText x) = normText x := by
  refine ⟨rfl, by decide, ?_⟩
  intro x hx
  cases x with
  | none => rfl
  | some l =>
    by_cases hl : l = []
    · subst hl; rfl
    · have h1 : normText (some l) = some (normBody l) := by
        rw [normText]
        exact if_neg hl
      rw [h1] at hx ⊢
      have h2 : normBody l ≠ [] := by
        intro h
        apply hx
        rw [h]
        rfl
      rw [normText, if_neg h2, normBody_idem]

/-- Witness for C7 at a concrete input whose normalization is non-empty. -/
theorem C7_normText_idempotent_witness :
    normText (some (chars "Abc  D!")) ≠ some (chars "") ∧
    normText (normText (some (chars "Abc  D!"))) = normText (some (chars "Abc  D!")) :=
  ⟨by decide, C7_normText_idempotent.2.2 _ (by decide)⟩

/-! ### Regex scanning machinery

The source's regular-expression passes are modelled as explicit character
scanners with JavaScript's leftmost-first alternation, greedy backtracking
and word-boundary (`\b`) semantics. -/

/-- JS `x || null` on an optional string: the empty string is falsy. -/
def jsOptTruthy : Option Str → Option Str
  | none => none
  | some x => if x = [] then none else some x

/-- Case-insensitive literal match at the head of a string; the pattern is
given in lowercase. -/
def headMatchCI : Str → Str → Bool
  | [], _ => true
  | _ :: _, [] => false
  | p :: ps, c :: cs => p = jsLower c && headMatchCI ps cs

/-- A word boundary lies between the previous character and this remainder:
the remainder is empty or starts with a non-word character. -/
def boundaryAt : Str → Bool
  | [] => true
  | c :: _ => !isWordCh c

/-- The first `k` characters exist and are ASCII digits. -/
def digitsAt : ℕ → Str → Bool
  | 0, _ => true
  | _ + 1, [] => false
  | k + 1, c :: cs => isDigitCh c && digitsAt k cs

/-- Length of the leading whitespace run (`^\s*`). -/
def wsRunLen : Str → ℕ
  | [] => 0
  | c :: cs => if isWs c then wsRunLen cs + 1 else 0

/-- Try the alternatives of `\b(a₁|a₂|…)\b` in order at the head of `l`
(the leading `\b` is checked by the caller); each branch requires a word
boundary after it.  Returns the matched length. -/
def tryAltsAt : List Str → Str → Option ℕ
  | [], _ => none
  | a :: rest, l =>
    if headMatchCI a l && boundaryAt (l.drop a.length) then some a.length
    else tryAltsAt rest l

/-- `String.replace(re, " ")` for a global, case-insensitive pattern starting
and ending on word characters: scan the string; wherever the previous
character is not a word character (a `\b` position), try the matcher
(which reports the matched length); a match is replaced by one space and
scanning resumes after it (the matched text ends in a word character, so
the next position is not a boundary). -/
def replaceScanAux (tm : Str → Option ℕ) : ℕ → Bool → Str → Str
  | _, _, [] => []
  | skip + 1, _, _ :: cs => replaceScanAux tm skip true cs
  | 0, prevWord, c :: cs =>
    if prevWord then c :: replaceScanAux tm 0 (isWordCh c) cs
    else
      match tm (c :: cs) with
      | some n => ' ' :: replaceScanAux tm (n - 1) true cs
      | none => c :: replaceScanAux tm 0 (isWordCh c) cs

/-- Global word-boundary replace by a single space. -/
def replaceScan (tm : Str → Option ℕ) (l : Str) : Str := replaceScanAux tm 0 false l

/-- `String.replace(/\b(a₁|a₂|…)\b/gi, " ")`. -/
def replaceWordAlts (alts : List Str) (l : Str) : Str := replaceScan (tryAltsAt alts) l

/-- `re.exec`: character index and length of the first word-boundary match of
one of the alternatives. -/
def findWordAltsAux (alts : List Str) : Bool → ℕ → Str → Option (ℕ × ℕ)
  | _, _, [] => none
  | prevWord, i, c :: cs =>
    if prevWord then findWordAltsAux alts (isWordCh c) (i + 1) cs
    else
      match tryAltsAt alts (c :: cs) with
      | some n => some (i, n)
      | none => findWordAltsAux alts (isWordCh c) (i + 1) cs

/-- First word-boundary match of one of the alternatives in `l`. -/
def findWordAlts (alts : List Str) (l : Str) : Option (ℕ × ℕ) :=
  findWordAltsAux alts false 0 l

/-- `\d{1,2}:\d{2}` at the head of the string (greedy on the hour digits,
with JS backtracking from two digits down to one).  Returns the length. -/
def tryHmm (l : Str) : Option ℕ :=
  if digitsAt 2 l && (l.drop 2).headD ' ' = ':' && digitsAt 2 (l.drop 3) then some 5
  else if digitsAt 1 l && (l.drop 1).headD ' ' = ':' && digitsAt 2 (l.drop 2) then some 4
  else none

/-- `^\s*\d{1,2}:\d{2}\s*(AM|PM)\s+` (case-insensitive): length of the match,
if any. -/
def matchTime12 (l : Str) : Option ℕ :=
  let w := wsRunLen l
  match tryHmm (l.drop w) with
  | none => none
  | some h =>
    let p := w + h
    let w2 := wsRunLen (l.drop p)
    let q := p + w2
    if headMatchCI (chars "am") (l.drop q) || headMatchCI (chars "pm") (l.drop q) then
      let r := q + 2
      let w3 := wsRunLen (l.drop r)
      if 0 < w3 then some (r + w3) else none
    else none

/-- `^\s*\d{1,2}:\d{2}\s+`: length of the match, if any. -/
def matchTime24 (l : Str) : Option ℕ :=
  let w := wsRunLen l
  match tryHmm (l.drop w) with
  | none => none
  | some h =>
    let p := w + h
    let w2 := wsRunLen (l.drop p)
    if 0 < w2 then some (p + w2) else none

/-- `stripLeadingTime` (server.js:244-254): trim, strip a leading 12-hour
time, then a leading 24-hour time, trim again. -/
def stripLeadingTime (s : Str) : Str :=
  let t := trimStr s
  let t1 := match matchTime12 t with | some n => t.drop n | none => t
  let t2 := match matchTime24 t1 with | some n => t1.drop n | none => t1
  trimStr t2

/-- `\b\d{4}-\d{2}-\d{2}\b` at the head of the string. -/
def tryIsoDate (l : Str) : Option ℕ :=
  if digitsAt 4 l && (l.drop 4).headD ' ' = '-' && digitsAt 2 (l.drop 5) &&
      (l.drop 7).headD ' ' = '-' && digitsAt 2 (l.drop 8) && boundaryAt (l.drop 10)
  then some 10 else none

/-- The optional ordinal suffix `(st|nd|rd|th)?\b` after `d` digits,
trying the alternatives in order and then the empty suffix. -/
def tryOrdSuffix (l : Str) (d : ℕ) : Option ℕ :=
  if headMatchCI (chars "st") (l.drop d) && boundaryAt (l.drop (d + 2)) then some (d + 2)
  else if headMatchCI (chars "nd") (l.drop d) && boundaryAt (l.drop (d + 2)) then some (d + 2)
  else if headMatchCI (chars "rd") (l.drop d) && boundaryAt (l.drop (d + 2)) then some (d + 2)
  else if headMatchCI (chars "th") (l.drop d) && boundaryAt (l.drop (d + 2)) then some (d + 2)
  else if boundaryAt (l.drop d) then some d
  else none

/-- `\b\d{1,2}(st|nd|rd|th)?\b` at the head of the string, with JS greedy
backtracking on the digit count. -/
def tryOrdinal (l : Str) : Option ℕ :=
  if digitsAt 2 l then
    match tryOrdSuffix l 2 with
    | some n => some n
    | none => if digitsAt 1 l then tryOrdSuffix l 1 else none
  else if digitsAt 1 l then tryOrdSuffix l 1 else none

/-! ### City resolver -/

/-- `\b(mon|tue|wed|thu|fri|sat|sun)\b`. -/
def weekdayAlts : List Str :=
  [chars "mon", chars "tue", chars "wed", chars "thu", chars "fri", chars "sat", chars "sun"]

/-- `\b(jan|feb|mar|apr|may|jun|jul|aug|sep|sept|oct|nov|dec)\b`, in the
source's alternation order. -/
def monthAlts : List Str :=
  [chars "jan", chars "feb", chars "mar", chars "apr", chars "may", chars "jun",
   chars "jul", chars "aug", chars "sep", chars "sept", chars "oct", chars "nov", chars "dec"]

/-- `\b(presents?|tour|part|show|stadium|arena|the|big|ass|tickets?)\b`,
with each optional-`s` branch flattened into its two literals. -/
def cityNoiseAlts : List Str :=
  [chars "presents", chars "present", chars "tour", chars "part", chars "show",
   chars "stadium", chars "arena", chars "the", chars "big", chars "ass",
   chars "tickets", chars "ticket"]

/-- `"a b".split(sep)` with JS semantics (keeps empty pieces). -/
def splitChar (sep : Char) : Str → List Str
  | [] => [[]]
  | c :: cs =>
    match splitChar sep cs with
    | [] => [[c]]
    | h :: t => if c = sep then [] :: h :: t else (c :: h) :: t

/-- `parts.join(" ")`. -/
def joinSp : List Str → Str
  | [] => []
  | [w] => w
  | w :: ws => w ++ ' ' :: joinSp ws

/-- `/^[a-zA-Z\s]+$/`. -/
def alphaSpaceOnly (l : Str) : Bool :=
  !l.isEmpty && l.all (fun c => isAlphaCh c || isWs c)

/-- `cityCandidateFromMessyString` (server.js:256-294): strip a leading time
token, cut after a whole-word "tickets", remove ISO dates, weekday, month and
ordinal tokens and a fixed noise-word list, collapse whitespace; keep the
whole remainder when it has at most 3 tokens, else the last 2 tokens if they
are alphabetic-only, else the last 3. -/
def cityCandidateFromMessyString (s : Str) : Option Str :=
  let t0 := trimStr s
  if t0 = [] then none
  else
    let t1 := stripLeadingTime t0
    let t2 := match findWordAlts [chars "tickets"] t1 with
      | some (i, n) => trimStr (t1.drop (i + n))
      | none => t1
    let t3 := replaceScan tryIsoDate t2
    let t4 := replaceWordAlts weekdayAlts t3
    let t5 := replaceWordAlts monthAlts t4
    let t6 := replaceScan tryOrdinal t5
    let t7 := replaceWordAlts cityNoiseAlts t6
    let t := trimStr (collapseWs t7)
    let parts := (splitChar ' ' t).filter (fun w => !w.isEmpty)
    if parts.length = 0 then none
    else if parts.length ≤ 3 then some t
    else
      let last2 := joinSp (parts.drop (parts.length - 2))
      let last3 := joinSp (parts.drop (parts.length - 3))
      if alphaSpaceOnly last2 then some last2 else some last3

/-- The fixed `CITY_ALIASES` table. -/
def CITY_ALIASES : List (Str × List Str) :=
  [(chars "west valley city", [chars "salt lake city"])]

/-- Association-list lookup for the alias table. -/
def aliasLookup : Str → List (Str × List Str) → Option (List Str)
  | _, [] => none
  | k, (a, v) :: rest => if k = a then some v else aliasLookup k rest

/-- Order-preserving de-duplication (a JS `Set` keeps first insertions). -/
def dedupStr (seen : List Str) : List Str → List Str
  | [] => []
  | x :: xs => if x ∈ seen then dedupStr seen xs else x :: dedupStr (x :: seen) xs

/-- The alias expansions of `base`: normalized truthy alias entries. -/
def cityAliasAdds (base : Str) : List Str :=
  match aliasLookup base CITY_ALIASES with
  | some ali => ali.filterMap (fun a => jsOptTruthy (normText (some a)))
  | none => []

/-- The `ft`/`fort` and `st`/`saint` head-token substitutions of
`cityVariants` (server.js:323-334). -/
def cityHeadSubs (base : Str) : List Str :=
  let parts := (splitChar ' ' base).filter (fun w => !w.isEmpty)
  if 2 ≤ parts.length then
    let head := parts.headD []
    let tail := joinSp parts.tail
    (if head = chars "ft" then [chars "fort " ++ tail] else []) ++
    (if head = chars "fort" then [chars "ft " ++ tail] else []) ++
    (if head = chars "st" then [chars "saint " ++ tail] else []) ++
    (if head = chars "saint" then [chars "st " ++ tail] else [])
  else []

/-- The variant set built from a truthy normalized base, in insertion order. -/
def cityVariantsCore (base : Str) : List Str :=
  dedupStr [] (base :: (cityAliasAdds base ++ cityHeadSubs base))

/-- `cityVariants` (server.js:306-337). -/
def cityVariants (rawCity : Str) : List Str :=
  match jsOptTruthy (normText (some ((cityCandidateFromMessyString rawCity).getD []))) with
  | none => []
  | some base => cityVariantsCore base

/-- C6 counterexample: the claim "cityVariants includes the normalized
cleaned input as its first element when the input is non-empty" fails at the
non-empty input `"tour"`: the cleaning pass removes the noise word `tour`
entirely, the candidate is null, and `cityVariants` returns the empty list,
which has no first element. -/
theorem C6_cityVariants_counterexample :
    chars "tour" ≠ [] ∧ cityVariants (chars "tour") = [] := by
  decide

/-- C6 (amended): `cityVariants` returns the empty list for empty input, and
includes the normalized cleaned input as its first element whenever cleaning
and normalization yield a truthy (non-null, non-empty) base; the head-token
expansion maps `"Ft Worth"` to a variant set containing `"fort worth"`, the
normalized city under which a stored Fort Worth event is found (the store
queries filter by membership of `cityNorm` in this variant set). -/
theorem C6_cityVariants_head :
    cityVariants [] = [] ∧
    chars "fort worth" ∈ cityVariants (chars "Ft Worth") ∧
    ∀ s base,
      jsOptTruthy (normText (some ((cityCandidateFromMessyString s).getD []))) = some base →
      (cityVariants s).head? = some base := by
  refine ⟨by decide, by decide, ?_⟩
  intro s base h
  unfold cityVariants
  rw [h]
  simp [cityVariantsCore, dedupStr]

/-- Witness for C6 at the concrete input `"Ft Worth"`. -/
theorem C6_cityVariants_head_witness :
    jsOptTruthy (normText (some ((cityCandidateFromMessyString (chars "Ft Worth")).getD [])))
      = some (chars "ft worth") ∧
    (cityVariants (chars "Ft Worth")).head? = some (chars "ft worth") :=
  ⟨by decide, C6_cityVariants_head.2.2 _ _ (by decide)⟩

/-! ### Performer query degradation -/

/-- Membership test on a list of strings. -/
def memStr (x : Str) : List Str → Bool
  | [] => false
  | y :: ys => if x = y then true else memStr x ys

/-- The `STOP_WORDS` set (server.js:552-576). -/
def STOP_WORDS : List Str :=
  [chars "tickets", chars "ticket", chars "tour", chars "events", chars "event",
   chars "show", chars "shows", chars "live", chars "official", chars "presents",
   chars "present", chars "featuring", chars "feat", chars "with", chars "and",
   chars "the", chars "a", chars "an", chars "parking", chars "day",
   chars "package", chars "sess", chars "session"]

/-- `isStopWord` (server.js:578): membership of the lowercased word. -/
def isStopWord (w : Str) : Bool := memStr (lowerStr w) STOP_WORDS

/-- `isYearToken` (server.js:582): `/^((19|20)\d{2})$/` on the trimmed word. -/
def isYearToken (w : Str) : Bool :=
  let s := trimStr w
  s.length = 4 && (headMatchCI (chars "19") s || headMatchCI (chars "20") s) &&
    digitsAt 2 (s.drop 2)

/-- `filterPerformerWords` (server.js:587-593). -/
def filterPerformerWords (words : List Str) : List Str :=
  ((((words.map trimStr).filter (fun w => !w.isEmpty)).filter
      (fun w => !isStopWord w)).filter (fun w => !isYearToken w))

/-- The mode argument of `buildWordVariants`. -/
inductive WvMode
  | exact
  | upcoming
deriving DecidableEq

/-- The conditions under which a derived single-token variant is pushed in
`buildWordVariants` (server.js:617-631 and 640-654): skip stopwords and
years; a token shorter than 3 characters only in exact mode; in upcoming
mode only tokens of length at least 4. -/
def keepSingle (mode : WvMode) (t : Str) : Bool :=
  let one := lowerStr t
  if isStopWord one || isYearToken one then false
  else if one.length < 3 then
    match mode with
    | WvMode.exact => true
    | WvMode.upcoming => false
  else
    match mode with
    | WvMode.upcoming => decide (4 ≤ one.length)
    | WvMode.exact => true

/-- Keep a candidate variant: full-length slices always, single tokens only
under `keepSingle`. -/
def keepVariant (mode : WvMode) (v : List Str) : Bool :=
  if v.length = 1 then keepSingle mode (v.headD []) else true

/-- The ordered candidate list of `buildWordVariants`: the full token list,
then strict head slices from longest to shortest (dropping trailing tokens),
then strict tail slices (dropping leading tokens), with the single-token
guard applied where the loops `continue`. -/
def wvCandidates (w : List Str) (mode : WvMode) : List (List Str) :=
  [w] ++
  (((List.range (w.length - 1)).reverse.map (fun j => w.take (j + 1))).filter
    (keepVariant mode)) ++
  (((List.range (w.length - 1)).map (fun j => w.drop (j + 1))).filter
    (keepVariant mode))

/-- Order-preserving de-duplication keyed by `arr.join(" ")`, as done by the
`seen` set and `push` helper in `buildWordVariants`. -/
def dedupByKeyAux (seen : List Str) : List (List Str) → List (List Str)
  | [] => []
  | x :: xs =>
    if joinSp x ∈ seen then dedupByKeyAux seen xs
    else x :: dedupByKeyAux (joinSp x :: seen) xs

/-- `buildWordVariants` (server.js:595-660), applied to the trimmed,
truthiness-filtered word list `w` of its first lines. -/
def buildWordVariants (words : List Str) (mode : WvMode) : List (List Str) :=
  if ((words.map trimStr).filter (fun w => !w.isEmpty)) = [] then []
  else dedupByKeyAux [] (wvCandidates ((words.map trimStr).filter (fun w => !w.isEmpty)) mode)

theorem map_trim_filter_id {words : List Str}
    (hw : ∀ w ∈ words, trimStr w = w ∧ w ≠ []) :
    (words.map trimStr).filter (fun w => !w.isEmpty) = words := by
  induction words with
  | nil => rfl
  | cons a t ih =>
    have ha := hw a (List.mem_cons_self a t)
    have ht := fun w hwm => hw w (List.mem_cons_of_mem a hwm)
    simp only [List.map_cons, List.filter_cons, ha.1]
    rcases hae : a with _ | ⟨c, cs⟩
    · exact absurd hae ha.2
    · rw [← hae, ih ht]
      rw [hae]
      rfl

theorem mem_of_mem_dedupByKeyAux :
    ∀ (l : List (List Str)) (seen : List Str) {x}, x ∈ dedupByKeyAux seen l → x ∈ l := by
  intro l
  induction l with
  | nil => intro seen x hx; simp [dedupByKeyAux] at hx
  | cons a t ih =>
    intro seen x hx
    by_cases ha : joinSp a ∈ seen
    · simp only [dedupByKeyAux, if_pos ha] at hx
      exact List.mem_cons_of_mem a (ih seen hx)
    · simp only [dedupByKeyAux, if_neg ha] at hx
      rcases List.mem_cons.mp hx with hx | hx
      · subst hx; exact List.mem_cons_self _ _
      · exact List.mem_cons_of_mem a (ih _ hx)

theorem nodup_dedupByKeyAux :
    ∀ (l : List (List Str)) (seen : List Str),
      ((dedupByKeyAux seen l).map joinSp).Nodup ∧
      ∀ k ∈ (dedupByKeyAux seen l).map joinSp, k ∉ seen := by
  intro l
  induction l with
  | nil => intro seen; simp [dedupByKeyAux]
  | cons x xs ih =>
    intro seen
    by_cases hx : joinSp x ∈ seen
    · simp only [dedupByKeyAux, if_pos hx]
      exact ih seen
    · simp only [dedupByKeyAux, if_neg hx]
      obtain ⟨ihn, ihs⟩ := ih (joinSp x :: seen)
      constructor
      · simp only [List.map_cons, List.nodup_cons]
        exact ⟨fun hmem => (ihs _ hmem) (List.mem_cons_self _ _), ihn⟩
      · intro k hk
        simp only [List.map_cons, List.mem_cons] at hk
        rcases hk with hk | hk
        · subst hk; exact hx
        · exact fun hks => (ihs k hk) (List.mem_cons_of_mem _ hks)

theorem mem_dedupByKeyAux_of_unique :
    ∀ (l : List (List Str)) (seen : List Str) {x}, x ∈ l → joinSp x ∉ seen →
      (∀ y ∈ l, joinSp y = joinSp x → y = x) → x ∈ dedupByKeyAux seen l := by
  intro l
  induction l with
  | nil => intro seen x hx; simp at hx
  | cons a t ih =>
    intro seen x hx hseen huniq
    rcases List.mem_cons.mp hx with hx | hx
    · subst hx
      simp only [dedupByKeyAux, if_neg hseen]
      exact List.mem_cons_self _ _
    · by_cases ha : joinSp a ∈ seen
      · simp only [dedupByKeyAux, if_pos ha]
        exact ih seen hx hseen (fun y hy => huniq y (List.mem_cons_of_mem a hy))
      · simp only [dedupByKeyAux, if_neg ha]
        by_cases hax : a = x
        · subst hax; exact List.mem_cons_self _ _
        · apply List.mem_cons_of_mem
          apply ih _ hx ?_ (fun y hy => huniq y (List.mem_cons_of_mem a hy))
          intro hmem
          rcases List.mem_cons.mp hmem with h1 | h1
          · exact hax (huniq a (List.mem_cons_self a t) h1.symm)
          · exact hseen h1

theorem dedupByKeyAux_nil_cons_head (x : List Str) (xs : List (List Str)) :
    (dedupByKeyAux [] (x :: xs)).head? = some x := by
  simp [dedupByKeyAux]

theorem space_mem_joinSp (a b : Str) (r : List Str) : ' ' ∈ joinSp (a :: b :: r) := by
  show ' ' ∈ a ++ ' ' :: joinSp (b :: r)
  exact List.mem_append_right a (List.mem_cons_self _ _)

theorem mem_wvCandidates_ne_nil {w : List Str} {mode : WvMode} (hw : w ≠ []) :
    ∀ v ∈ wvCandidates w mode, v ≠ [] := by
  intro v hv hnil
  subst hnil
  rw [wvCandidates] at hv
  rcases List.mem_append.mp hv with h1 | hB
  · rcases List.mem_append.mp h1 with hW | hA
    · rw [List.mem_singleton] at hW
      exact hw hW.symm
    · obtain ⟨j, hj, hjv⟩ := List.mem_map.mp (List.mem_filter.mp hA).1
      rw [List.mem_reverse, List.mem_range] at hj
      have hlen := congrArg List.length hjv
      simp only [List.length_take, List.length_nil] at hlen
      have hwlen : w.length ≠ 0 := fun h => hw (List.eq_nil_of_length_eq_zero h)
      omega
  · obtain ⟨j, hj, hjv⟩ := List.mem_map.mp (List.mem_filter.mp hB).1
    rw [List.mem_range] at hj
    have hlen := congrArg List.length hjv
    simp only [List.length_drop, List.length_nil] at hlen
    omega

theorem keepSingle_iff (mode : WvMode) (t : Str) :
    keepSingle mode t = true ↔
      (isStopWord (lowerStr t) = false ∧ isYearToken (lowerStr t) = false ∧
       ((lowerStr t).length < 3 → mode = WvMode.exact) ∧
       (mode = WvMode.upcoming → 4 ≤ (lowerStr t).length)) := by
  unfold keepSingle
  cases hs : isStopWord (lowerStr t) <;> cases hy : isYearToken (lowerStr t) <;>
    cases mode <;> simp [hs, hy] <;> split_ifs with h <;> simp [h] <;> omega

/-- C5: for every non-empty list of (trimmed, non-empty, space-free) tokens
and either mode, `buildWordVariants` starts with the full token list,
contains no empty variant, and is de-duplicated; for a token list with at
least two tokens, each derived single-token variant — the head token from
the prefix loop and the last token from the suffix loop, the only slices of
length one — is present exactly when that token is neither a stopword nor a
year, tokens shorter than 3 characters are kept only in exact mode, and
upcoming mode requires length at least 4. -/
theorem C5_buildWordVariants (words : List Str) (mode : WvMode)
    (hne : words ≠ [])
    (hcl : ∀ w ∈ words, trimStr w = w ∧ w ≠ [] ∧ ' ' ∉ w) :
    (buildWordVariants words mode).head? = some words ∧
    [] ∉ buildWordVariants words mode ∧
    (buildWordVariants words mode).Nodup ∧
    (∀ t rest, words = t :: rest → rest ≠ [] →
      ([t] ∈ buildWordVariants words mode ↔
        (isStopWord (lowerStr t) = false ∧ isYearToken (lowerStr t) = false ∧
         ((lowerStr t).length < 3 → mode = WvMode.exact) ∧
         (mode = WvMode.upcoming → 4 ≤ (lowerStr t).length)))) ∧
    ∀ pre t, words = pre ++ [t] → pre ≠ [] →
      ([t] ∈ buildWordVariants words mode ↔
        (isStopWord (lowerStr t) = false ∧ isYearToken (lowerStr t) = false ∧
         ((lowerStr t).length < 3 → mode = WvMode.exact) ∧
         (mode = WvMode.upcoming → 4 ≤ (lowerStr t).length))) := by
  have hw0 : (words.map trimStr).filter (fun w => !w.isEmpty) = words :=
    map_trim_filter_id (fun w h => ⟨(hcl w h).1, (hcl w h).2.1⟩)
  have hbv : buildWordVariants words mode = dedupByKeyAux [] (wvCandidates words mode) := by
    rw [buildWordVariants, hw0, if_neg hne]
  refine ⟨?_, ?_, ?_, ?_, ?_⟩
  · rw [hbv]
    obtain ⟨r, hr⟩ : ∃ r, wvCandidates words mode = words :: r := ⟨_, rfl⟩
    rw [hr]
    exact dedupByKeyAux_nil_cons_head _ _
  · rw [hbv]
    intro hmem
    exact mem_wvCandidates_ne_nil hne [] (mem_of_mem_dedupByKeyAux _ _ hmem) rfl
  · rw [hbv]
    exact List.Nodup.of_map joinSp (nodup_dedupByKeyAux _ []).1
  · intro t rest hwrd hrest
    rw [hbv]
    constructor
    · intro hmem
      have hc := mem_of_mem_dedupByKeyAux _ _ hmem
      rw [wvCandidates] at hc
      rcases List.mem_append.mp hc with h1 | hB
      · rcases List.mem_append.mp h1 with hW | hA
        · rw [List.mem_singleton, hwrd] at hW
          injection hW with h1 h2
          exact absurd h2.symm hrest
        · have hkv := (List.mem_filter.mp hA).2
          simp [keepVariant] at hkv
          exact (keepSingle_iff mode t).mp hkv
      · have hkv := (List.mem_filter.mp hB).2
        simp [keepVariant] at hkv
        exact (keepSingle_iff mode t).mp hkv
    · intro hcond
      have hks : keepSingle mode t = true := (keepSingle_iff mode t).mpr hcond
      apply mem_dedupByKeyAux_of_unique
      · rw [wvCandidates]
        apply List.mem_append_left
        apply List.mem_append_right
        apply List.mem_filter.mpr
        refine ⟨List.mem_map.mpr ⟨0, ?_, ?_⟩, ?_⟩
        · rw [List.mem_reverse, List.mem_range, hwrd]
          cases rest with
          | nil => exact absurd rfl hrest
          | cons b bs => simp
        · rw [hwrd]; rfl
        · simp [keepVariant]
          exact hks
      · simp
      · intro y hy hkey
        have hyne := mem_wvCandidates_ne_nil hne y hy
        rcases y with _ | ⟨a, ys⟩
        · exact absurd rfl hyne
        · rcases ys with _ | ⟨b, r⟩
          · have ha : a = t := by simpa [joinSp] using hkey
            rw [ha]
          · exfalso
            have hsp := space_mem_joinSp a b r
            rw [hkey] at hsp
            have hmem : ' ' ∈ t := by simpa [joinSp] using hsp
            exact (hcl t (by rw [hwrd]; exact List.mem_cons_self _ _)).2.2 hmem
  · intro pre t hwrd hpre
    rw [hbv]
    have h0 : pre.length ≠ 0 := fun h => hpre (List.eq_nil_of_length_eq_zero h)
    constructor
    · intro hmem
      have hc := mem_of_mem_dedupByKeyAux _ _ hmem
      rw [wvCandidates] at hc
      rcases List.mem_append.mp hc with h1 | hB
      · rcases List.mem_append.mp h1 with hW | hA
        · rw [List.mem_singleton, hwrd] at hW
          have hl := congrArg List.length hW
          simp only [List.length_append, List.length_singleton] at hl
          omega
        · have hkv := (List.mem_filter.mp hA).2
          simp [keepVariant] at hkv
          exact (keepSingle_iff mode t).mp hkv
      · have hkv := (List.mem_filter.mp hB).2
        simp [keepVariant] at hkv
        exact (keepSingle_iff mode t).mp hkv
    · intro hcond
      have hks : keepSingle mode t = true := (keepSingle_iff mode t).mpr hcond
      apply mem_dedupByKeyAux_of_unique
      · rw [wvCandidates]
        apply List.mem_append_right
        apply List.mem_filter.mpr
        refine ⟨List.mem_map.mpr ⟨pre.length - 1, ?_, ?_⟩, ?_⟩
        · rw [List.mem_range, hwrd]
          simp only [List.length_append, List.length_singleton]
          omega
        · have h1 : pre.length - 1 + 1 = pre.length := by omega
          rw [hwrd, h1]
          exact List.drop_left pre [t]
        · simp [keepVariant]
          exact hks
      · simp
      · intro y hy hkey
        have hyne := mem_wvCandidates_ne_nil hne y hy
        rcases y with _ | ⟨a, ys⟩
        · exact absurd rfl hyne
        · rcases ys with _ | ⟨b, r⟩
          · have ha : a = t := by simpa [joinSp] using hkey
            rw [ha]
          · exfalso
            have hsp := space_mem_joinSp a b r
            rw [hkey] at hsp
            have hmem : ' ' ∈ t := by simpa [joinSp] using hsp
            exact (hcl t (by
              rw [hwrd]
              exact List.mem_append_right _ (List.mem_singleton_self t))).2.2 hmem

/-- Witness for C5 at the concrete token list `["zach", "bryan"]` in
upcoming mode, exercising both derived single-token variants: the suffix
variant `["bryan"]` is a member. -/
theorem C5_buildWordVariants_witness :
    (buildWordVariants [chars "zach", chars "bryan"] WvMode.upcoming).head? =
      some [chars "zach", chars "bryan"] ∧
    [] ∉ buildWordVariants [chars "zach", chars "bryan"] WvMode.upcoming ∧
    [chars "bryan"] ∈ buildWordVariants [chars "zach", chars "bryan"] WvMode.upcoming :=
  ⟨(C5_buildWordVariants _ _ (by decide) (by decide)).1,
   (C5_buildWordVariants _ _ (by decide) (by decide)).2.1,
   ((C5_buildWordVariants _ _ (by decide) (by decide)).2.2.2.2 [chars "zach"]
     (chars "bryan") rfl (by decide)).mpr (by decide)⟩

/-! ### Prices and promo arithmetic

JavaScript numbers are modelled as exact rationals computed in integer
arithmetic; for the integer cent amounts and percent values stored by this
service the double-precision computations of the source coincide with exact
arithmetic. -/

/-- `Math.round (num / den)` for a positive denominator, in integer
arithmetic: `⌊num/den + 1/2⌋ = ⌊(2·num + den) / (2·den)⌋`. -/
def jsRoundDiv (num den : ℤ) : ℤ := (2 * num + den) / (2 * den)

/-- `estAfterPromo` (server.js:434-438): null price yields null; a null
promo percent is treated as 0; `Math.round(m · (1 − p/100))` is the
half-up rounding of the exact rational `m·(100−p)/100`. -/
def estAfterPromo (priceMinCents : Option ℤ) (promoPercent : Option ℤ) : Option ℤ :=
  match priceMinCents with
  | none => none
  | some m => some (jsRoundDiv (m * (100 - promoPercent.getD 0)) 100)

/-- The decimal digit character for `d`. -/
def digitCh (d : ℕ) : Char := Char.ofNat (48 + d)

/-- Decimal digits of a natural number, most significant first; the fuel
argument (instantiated with the number itself) makes the recursion
structural. -/
def natDigitsFuel : ℕ → ℕ → Str
  | 0, n => [digitCh (n % 10)]
  | fuel + 1, n =>
    if n < 10 then [digitCh (n % 10)]
    else natDigitsFuel fuel (n / 10) ++ [digitCh (n % 10)]

/-- Decimal representation of a natural number. -/
def natDigits (n : ℕ) : Str := natDigitsFuel n n

/-- Two-digit zero-padded decimal representation (for `n < 100`). -/
def pad2 (n : ℕ) : Str := if n < 10 then '0' :: natDigits n else natDigits n

/-- `money` (server.js:429-432): `(cents / 100).toFixed(2)`, which for
integer cent amounts is the exact two-decimal rendering. -/
def money : Option ℤ → Option Str
  | none => none
  | some cents =>
    some ((if cents < 0 then ['-'] else []) ++
      natDigits (cents.natAbs / 100) ++ '.' :: pad2 (cents.natAbs % 100))

/-- Numeric value of a decimal digit string (`foldl` accumulator form). -/
def digitsToNat (l : Str) : ℕ := l.foldl (fun acc c => acc * 10 + (c.toNat - 48)) 0

/-- An exact JavaScript number `num / den` (`den` always positive here),
kept unreduced so that comparisons stay in kernel-computable integer
arithmetic. -/
structure Frac where
  num : ℤ
  den : ℤ
deriving DecidableEq, Repr

/-- Comparison of two fractions with positive denominators. -/
def fracLe (x y : Frac) : Bool := decide (x.num * y.den ≤ y.num * x.den)

/-- `Number(s)` on an unsigned decimal string (integer digits, optional
fractional digits), as produced by `money` or the literal `"999999"`. -/
def numAbsVal (s : Str) : Frac :=
  match s.dropWhile isDigitCh with
  | '.' :: fr =>
    { num := (digitsToNat (s.takeWhile isDigitCh) : ℤ) * (10 : ℤ) ^ (fr.takeWhile isDigitCh).length
        + (digitsToNat (fr.takeWhile isDigitCh) : ℤ),
      den := (10 : ℤ) ^ (fr.takeWhile isDigitCh).length }
  | _ => { num := (digitsToNat (s.takeWhile isDigitCh) : ℤ), den := 1 }

/-- `Number(s)` with an optional leading minus sign. -/
def jsNumberOfPrice (s : Str) : Frac :=
  match s with
  | [] => { num := 0, den := 1 }
  | c :: rest =>
    if c = '-' then
      { num := -(numAbsVal rest).num, den := (numAbsVal rest).den }
    else numAbsVal (c :: rest)

/-- The integer-arithmetic rounding agrees with `⌊·/100 + 1/2⌋`. -/
theorem jsRoundDiv_eq_floor (num : ℤ) :
    jsRoundDiv num 100 = ⌊(num : ℚ) / 100 + 1 / 2⌋ := by
  have h2 : (2 : ℤ) * 100 = 200 := by norm_num
  rw [jsRoundDiv, h2]
  have hlo' : (200 * ((2 * num + 100) / 200) : ℤ) ≤ 2 * num + 100 := by omega
  have hhi' : 2 * num + 100 < 200 * ((2 * num + 100) / 200 + 1) := by omega
  have hlo : (200 : ℚ) * ((((2 * num + 100) / 200 : ℤ)) : ℚ) ≤ 2 * (num : ℚ) + 100 := by
    exact_mod_cast hlo'
  have hhi : 2 * (num : ℚ) + 100 < 200 * (((((2 * num + 100) / 200 : ℤ)) : ℚ) + 1) := by
    exact_mod_cast hhi'
  symm
  rw [Int.floor_eq_iff]
  constructor
  · linarith
  · linarith

/-- C8: `est_after_promo` is `round(price_min × (1 − promo_percent/100))` in
integer minor units with a null promo treated as 0 (in particular the
estimate under a null promo is the base price itself), it is null exactly
when `price_min` is null, and the offer with `price_min = 10000` cents and
`promo_percent = 20` displays as `"80.00"`. -/
theorem C8_estAfterPromo (pp : Option ℤ) (m : ℤ) :
    (∀ pm : Option ℤ, (estAfterPromo pm pp = none ↔ pm = none)) ∧
    estAfterPromo (some m) pp =
      some ⌊(m : ℚ) * (1 - (pp.getD 0 : ℚ) / 100) + 1 / 2⌋ ∧
    estAfterPromo (some m) none = some m ∧
    money (estAfterPromo (some 10000) (some 20)) = some (chars "80.00") := by
  refine ⟨?_, ?_, ?_, by decide⟩
  · intro pm
    cases pm <;> simp [estAfterPromo]
  · simp only [estAfterPromo]
    congr 1
    rw [jsRoundDiv_eq_floor]
    congr 1
    push_cast
    ring
  · simp only [estAfterPromo, Option.getD_none]
    congr 1
    rw [jsRoundDiv]
    omega

/-! ### Dates

`Date.UTC(y, m, d, 0, 0, 0)` timestamps are modelled as day numbers since
the Unix epoch (all stored and compared dates are UTC midnights, so the
`× 86 400 000` milliseconds scale is an order-isomorphism).  The formulas
follow ECMAScript `MakeDay` with its floor divisions and month rollover. -/

/-- ECMAScript `DayFromYear`. -/
def jsDayFromYear (y : ℤ) : ℤ :=
  365 * (y - 1970) + (y - 1969) / 4 - (y - 1901) / 100 + (y - 1601) / 400

/-- ECMAScript `InLeapYear`. -/
def jsIsLeap (y : ℤ) : Bool :=
  (decide (y % 4 = 0) && !decide (y % 100 = 0)) || decide (y % 400 = 0)

/-- Days in the year before 0-based month `m` (`0 ≤ m ≤ 11`). -/
def monthOffset (m : ℤ) (leap : Bool) : ℤ :=
  ([0, 31, 59, 90, 120, 151, 181, 212, 243, 273, 304, 334].getD m.toNat 0 : ℤ) +
    (if leap && decide (2 ≤ m) then 1 else 0)

/-- ECMAScript `MakeDay(y, m, d)` with a 0-based month (as in `Date.UTC`),
in days since the epoch. -/
def jsMakeDay (y m d : ℤ) : ℤ :=
  jsDayFromYear (y + m / 12) + monthOffset (m % 12) (jsIsLeap (y + m / 12)) + (d - 1)

/-- `parseDateDayFromYMD` (server.js:404-408):
`/^(\d{4})-(\d{2})-(\d{2})$/` then `Date.UTC`. -/
def parseDateDayFromYMD (l : Str) : Option ℤ :=
  if digitsAt 4 l && (l.drop 4).headD ' ' = '-' && digitsAt 2 (l.drop 5) &&
      (l.drop 7).headD ' ' = '-' && digitsAt 2 (l.drop 8) && l.length = 10 then
    some (jsMakeDay (digitsToNat (l.take 4) : ℤ)
      ((digitsToNat ((l.drop 5).take 2) : ℤ) - 1)
      (digitsToNat ((l.drop 8).take 2) : ℤ))
  else none

/-- Civil date from a day number (Gregorian calendar, floor divisions),
for rendering `toISOString().slice(0, 10)`. -/
def civilFromDays (z : ℤ) : ℤ × ℤ × ℤ :=
  let z2 := z + 719468
  let era := z2 / 146097
  let doe := z2 % 146097
  let yoe := (doe - doe / 1460 + doe / 36524 - doe / 146096) / 365
  let y := yoe + era * 400
  let doy := doe - (365 * yoe + yoe / 4 - yoe / 100)
  let mp := (5 * doy + 2) / 153
  let d := doy - (153 * mp + 2) / 5 + 1
  let m := mp + (if mp < 10 then 3 else -9)
  (y + (if m ≤ 2 then 1 else 0), m, d)

/-- Left-pad a digit string with zeros to width `k`. -/
def padZeros (k : ℕ) (s : Str) : Str := List.replicate (k - s.length) '0' ++ s

/-- `dateDay.toISOString().slice(0, 10)` (modelled for years 0-9999). -/
def isoDateStr (z : ℤ) : Str :=
  padZeros 4 (natDigits (civilFromDays z).1.toNat) ++
    '-' :: padZeros 2 (natDigits (civilFromDays z).2.1.toNat) ++
    '-' :: padZeros 2 (natDigits (civilFromDays z).2.2.toNat)

/-- `toTime12` (server.js:417-427): `/^(\d{2}):(\d{2})$/`, 12-hour rendering. -/
def toTime12 (t : Option Str) : Option Str :=
  match t with
  | none => none
  | some l =>
    if digitsAt 2 l && (l.drop 2).headD ' ' = ':' && digitsAt 2 (l.drop 3) &&
        l.length = 5 then
      some (natDigits (let h := digitsToNat (l.take 2) % 12; if h = 0 then 12 else h) ++
        ':' :: (l.drop 3) ++ ' ' ::
        (if 12 ≤ digitsToNat (l.take 2) then chars "PM" else chars "AM"))
    else none

/-! ### State resolver -/

/-- The result record of `normalizeState`. -/
structure StateRes where
  stateFull : Option Str
  stateAbbr : Option Str
  stateNorm : Option Str
deriving DecidableEq, Repr

/-- Association-list lookup (the state maps). -/
def lookupStr : Str → List (Str × Str) → Option Str
  | _, [] => none
  | k, (a, v) :: rest => if k = a then some v else lookupStr k rest

/-- `/^[A-Za-z]{2,3}$/`. -/
def isAlpha2or3 (l : Str) : Bool :=
  (decide (l.length = 2) || decide (l.length = 3)) && l.all isAlphaCh

/-- `normalizeState` (server.js:383-402), parameterized by the process-wide
abbreviation/name tables that `loadStateMaps` reads from the state CSV at
startup (the CSV is data, not code; the tables are injected as in §9 of the
design notes). -/
def normalizeState (abbrToName nameToAbbr : List (Str × Str))
    (inputState : Option Str) : Option StateRes :=
  let raw := trimStr (inputState.getD [])
  if raw.isEmpty then none
  else if isAlpha2or3 raw then
    match lookupStr (lowerStr raw) abbrToName with
    | some full =>
      some { stateFull := some full, stateAbbr := some (upperStr raw),
             stateNorm := normText (some full) }
    | none =>
      some { stateFull := none, stateAbbr := some (upperStr raw), stateNorm := none }
  else
    match jsOptTruthy (normText (some raw)) with
    | none => none
    | some fullKey =>
      some { stateFull := some raw, stateAbbr := lookupStr fullKey nameToAbbr,
             stateNorm := some fullKey }

/-! ### Slug and fallback links -/

/-- `[^a-z0-9]+` runs become one space each. -/
def slugRunsAux : Bool → Str → Str
  | _, [] => []
  | prevBad, c :: cs =>
    if isLowerCh c || isDigitCh c then c :: slugRunsAux false cs
    else if prevBad then slugRunsAux true cs
    else ' ' :: slugRunsAux true cs

/-- `-+` runs become one hyphen each. -/
def collapseHyphAux : Bool → Str → Str
  | _, [] => []
  | prev, c :: cs =>
    if c = '-' then
      if prev then collapseHyphAux true cs else '-' :: collapseHyphAux true cs
    else c :: collapseHyphAux false cs

/-- `.replace(/^-|-$/g, "")`: one leading and one trailing hyphen. -/
def trimHyph (l : Str) : Str :=
  let l1 := match l with | '-' :: r => r | x => x
  if l1.getLast? = some '-' then l1.dropLast else l1

/-- `slugifyPerformerName` (server.js:445-459). -/
def slugifyPerformerName (name : Str) : Option Str :=
  let s0 := trimStr name
  if s0.isEmpty then none
  else
    let s1 := stripMarks s0
    let s2 := s1.flatMap (fun c => if c = '&' then chars " and " else [c])
    let s3 := s2.filter (fun c => !(c = Char.ofNat 39))
    let s4 := lowerStr s3
    let s5 := slugRunsAux false s4
    let s6 := (trimStr s5).map (fun c => if isWs c then '-' else c)
    let s7 := trimHyph (collapseHyphAux false s6)
    if s7.isEmpty then none else some s7

/-- The per-source browse links record. -/
structure PerfLinks where
  geturtix : Str
  tn : Str
  tl : Str
  sbs : Str
deriving DecidableEq, Repr

/-- `buildPerformerLinks` (server.js:461-474): slug and per-source URLs. -/
def buildPerformerLinks (performerName : Str) : Option Str × Option PerfLinks :=
  match slugifyPerformerName performerName with
  | none => (none, none)
  | some slug =>
    (some slug,
     some { geturtix := chars "https://geturtix.com/performers/" ++ slug,
            tn := chars "https://www.ticketnetwork.com/e/performers/" ++ slug ++
              chars "-tickets",
            tl := chars "https://www.ticketliquidator.com/performers/" ++ slug ++
              chars "-tickets",
            sbs := chars "https://www.superboleteria.com/performers/" ++ slug ++
              chars "-boletos" })

/-! ### Performer extraction and cleanup -/

/-- Case-sensitive literal match at the head of a string. -/
def startsWithStr : Str → Str → Bool
  | [], _ => true
  | _ :: _, [] => false
  | p :: ps, c :: cs => p = c && startsWithStr ps cs

/-- `t.split(sep)[0]`: everything before the first occurrence of `sep`. -/
def cutAtSubAux (sep : Str) : Str → Str
  | [] => []
  | c :: cs => if startsWithStr sep (c :: cs) then [] else c :: cutAtSubAux sep cs

/-- `extractPerformerFromTitle` (server.js:482-494): cut at `" | "` and
`" - "`, strip ticketing words, collapse whitespace; results shorter than 2
characters are rejected. -/
def extractPerformerFromTitle (rawTitle : Str) : Option Str :=
  let t0 := trimStr rawTitle
  if t0.isEmpty then none
  else
    let t1 := cutAtSubAux (chars " - ") (cutAtSubAux (chars " | ") t0)
    let t2 := trimStr (replaceWordAlts
      [chars "tickets", chars "ticket", chars "tour", chars "events", chars "event"] t1)
    let t3 := trimStr (collapseWs t2)
    if t3.length < 2 then none else some t3

/-- `^\s*the\s+` (case-insensitive): length of the match, if any. -/
def matchLeadingThe (l : Str) : Option ℕ :=
  let w := wsRunLen l
  if headMatchCI (chars "the") (l.drop w) then
    let w2 := wsRunLen (l.drop (w + 3))
    if 0 < w2 then some (w + 3 + w2) else none
  else none

/-- `\b\d+\s*day\s*package\b` at the head of the string. -/
def tryNumDayPackage (l : Str) : Option ℕ :=
  let k := (l.takeWhile isDigitCh).length
  if k = 0 then none
  else
    let p1 := k + wsRunLen (l.drop k)
    if headMatchCI (chars "day") (l.drop p1) then
      let p2 := p1 + 3 + wsRunLen (l.drop (p1 + 3))
      if headMatchCI (chars "package") (l.drop p2) && boundaryAt (l.drop (p2 + 7)) then
        some (p2 + 7)
      else none
    else none

/-- `\bday\s*package\b` at the head of the string. -/
def tryDayPackage (l : Str) : Option ℕ :=
  if headMatchCI (chars "day") l then
    let p := 3 + wsRunLen (l.drop 3)
    if headMatchCI (chars "package") (l.drop p) && boundaryAt (l.drop (p + 7)) then
      some (p + 7)
    else none
  else none

/-- The `sess`/`session` token with a trailing word boundary. -/
def sessTokenAt (l : Str) : Option ℕ := tryAltsAt [chars "session", chars "sess"] l

/-- `\b(sess(ion)?)\b[^,]*$`: first boundary position whose `sess` token is
followed by a comma-free tail. -/
def findSessTailAux : Bool → ℕ → Str → Option ℕ
  | _, _, [] => none
  | prevWord, i, c :: cs =>
    if prevWord then findSessTailAux (isWordCh c) (i + 1) cs
    else
      match sessTokenAt (c :: cs) with
      | some n =>
        if ((c :: cs).drop n).all (fun x => !(x = ',')) then some i
        else findSessTailAux (isWordCh c) (i + 1) cs
      | none => findSessTailAux (isWordCh c) (i + 1) cs

/-- `.replace(/\b(sess(ion)?)\b[^,]*$/gi, " ")`. -/
def replaceSessTail (l : Str) : Str :=
  match findSessTailAux false 0 l with
  | some i => l.take i ++ [' ']
  | none => l

/-- `\s*\d+(-\d+)?\b` after a `sess`/`session` token of length `p`. -/
def trySessNumAfter (l : Str) (p : ℕ) : Option ℕ :=
  let q := p + wsRunLen (l.drop p)
  let k := ((l.drop q).takeWhile isDigitCh).length
  if k = 0 then none
  else
    let r := q + k
    match (if (l.drop r).headD ' ' = '-' then
        (let k2 := ((l.drop (r + 1)).takeWhile isDigitCh).length
         if 0 < k2 && boundaryAt (l.drop (r + 1 + k2)) then some (r + 1 + k2)
         else none)
      else none : Option ℕ) with
    | some n => some n
    | none => if boundaryAt (l.drop r) then some r else none

/-- `\b(sess(ion)?)\s*\d+(-\d+)?\b` at the head of the string (greedy
`session` branch first, then `sess`). -/
def trySessNum (l : Str) : Option ℕ :=
  if headMatchCI (chars "session") l then
    match trySessNumAfter l 7 with
    | some n => some n
    | none => if headMatchCI (chars "sess") l then trySessNumAfter l 4 else none
  else if headMatchCI (chars "sess") l then trySessNumAfter l 4 else none

/-- `cleanPerformerPicked` (server.js:506-532): strip a leading "The",
truncate at the first month token, remove day-package and session artifacts,
collapse whitespace. -/
def cleanPerformerPicked (s : Str) : Option Str :=
  let t0 := trimStr s
  if t0.isEmpty then none
  else
    let t1 := match matchLeadingThe t0 with | some n => t0.drop n | none => t0
    let t2 := match findWordAlts monthAlts t1 with
      | some (i, _) => trimStr (t1.take i)
      | none => t1
    let t3 := replaceScan tryNumDayPackage t2
    let t4 := replaceScan tryDayPackage t3
    let t5 := replaceWordAlts [chars "package"] t4
    let t6 := replaceSessTail t5
    let t7 := replaceScan trySessNum t6
    let t := trimStr (collapseWs t7)
    if t.isEmpty then none else some t

/-! ### The event store

Prisma rows, with the columns read by the matching engine (`schema`:
`Event`, `Performer`, `EventPerformer`, `Offer`).  `findMany` without
`orderBy` is modelled as returning rows in store order. -/

/-- A `Performer` row reached through the `EventPerformer` join. -/
structure StorePerformer where
  name : Option Str
  performerNorm : Option Str
deriving DecidableEq, Repr

/-- An `Offer` row (the columns read by `shapeEvent`). -/
structure StoreOffer where
  source : Str
  url : Str
  ticketsYn : Option Bool
  priceMin : Option ℤ
  priceMax : Option ℤ
  promoPercent : Option ℤ
deriving DecidableEq, Repr

/-- An `Event` row with its included offers and performers. -/
structure StoreEvent where
  id : Str
  eventName : Option Str
  dateDay : ℤ
  time24 : Option Str
  city : Option Str
  cityNorm : Option Str
  state : Option Str
  stateNorm : Option Str
  venue : Option Str
  performers : List StorePerformer
  offers : List StoreOffer
deriving DecidableEq, Repr

/-- A shaped offer as returned in a `/match` response. -/
structure ShapedOffer where
  source : Str
  url : Str
  tickets_yn : Option Bool
  base_price_min : Option Str
  base_price_max : Option Str
  promo_percent : Option ℤ
  est_after_promo : Option Str
  label_base : Str
  label_est : Str
deriving DecidableEq, Repr

/-- The offer-shaping step of `shapeEvent` (server.js:897-909). -/
def shapeOffer (o : StoreOffer) : ShapedOffer :=
  { source := o.source, url := o.url, tickets_yn := o.ticketsYn,
    base_price_min := money o.priceMin,
    base_price_max := money o.priceMax,
    promo_percent := o.promoPercent,
    est_after_promo := money (estAfterPromo o.priceMin o.promoPercent),
    label_base := chars "Base price (excl. fees & taxes)",
    label_est := chars "Est. after promo (excl. fees & taxes)" }

/-- The comparator key `Number(x.est_after_promo ?? x.base_price_min ??
"999999")` of the offer sort (server.js:911-915). -/
def offerSortKey (o : ShapedOffer) : Frac :=
  jsNumberOfPrice (o.est_after_promo.getD (o.base_price_min.getD (chars "999999")))

/-- The offer comparator as a relation. -/
def offerLe (a b : ShapedOffer) : Prop := fracLe (offerSortKey a) (offerSortKey b) = true

instance : DecidableRel offerLe := fun a b =>
  inferInstanceAs (Decidable (fracLe (offerSortKey a) (offerSortKey b) = true))

/-- `offers.sort((a, b) => Number(ax) - Number(bx))`: a stable ascending
sort by the comparator key (`Array.prototype.sort` is stable; any stable
sort by the same total preorder returns the same list). -/
def sortOffers (l : List ShapedOffer) : List ShapedOffer := List.insertionSort offerLe l

/-- A shaped event as returned in a `/match` response. -/
structure ShapedEvent where
  event_id : Str
  event_name : Option Str
  date_day : Str
  time_24 : Option Str
  time_12 : Option Str
  city : Option Str
  state : Option Str
  venue : Option Str
  performers : List Str
  tickets_yn : Option Bool
  offers : List ShapedOffer
deriving DecidableEq, Repr

/-- `shapeEvent` (server.js:896-938). -/
def shapeEvent (e : StoreEvent) : ShapedEvent :=
  { event_id := e.id,
    event_name := e.eventName,
    date_day := isoDateStr e.dateDay,
    time_24 := e.time24,
    time_12 := toTime12 e.time24,
    city := e.city,
    state := e.state,
    venue := e.venue,
    performers := e.performers.filterMap (fun p => jsOptTruthy p.name),
    tickets_yn :=
      if (sortOffers (e.offers.map shapeOffer)).any (fun o => o.tickets_yn == some true)
      then some true
      else if (sortOffers (e.offers.map shapeOffer)).any
          (fun o => o.tickets_yn == some false)
        then some false
        else none,
    offers := sortOffers (e.offers.map shapeOffer) }

/-! ### Store queries -/

/-- Whether `pat` occurs as a contiguous substring of `s`. -/
def hasSubAux (pat : Str) : Str → Bool
  | [] => pat.isEmpty
  | c :: cs => startsWithStr pat (c :: cs) || hasSubAux pat cs

/-- Prisma `{ contains: w, mode: "insensitive" }` on a nullable text
column: a null column never matches. -/
def containsCI (hay : Option Str) (w : Str) : Bool :=
  match hay with
  | none => false
  | some s => hasSubAux (lowerStr w) (lowerStr s)

/-- The `OR: cityOr` filter: `cityNorm` equals one of the variants. -/
def cityMatch (cityVars : List Str) (e : StoreEvent) : Bool :=
  match e.cityNorm with
  | none => false
  | some c => memStr c cityVars

/-- The optional `stateNorm` equality filter (spread only when truthy). -/
def stateMatch (stateNorm : Str) (e : StoreEvent) : Bool :=
  if stateNorm.isEmpty then true else e.stateNorm == some stateNorm

/-- `performers: { some: { performer: { AND: words.map(contains) } } }`. -/
def performerJoinMatch (words : List Str) (e : StoreEvent) : Bool :=
  e.performers.any (fun p => words.all (fun w => containsCI p.performerNorm w))

/-- `AND: words.map(w => ({ eventName: { contains: w } }))`. -/
def eventNameMatch (words : List Str) (e : StoreEvent) : Bool :=
  words.all (fun w => containsCI e.eventName w)

/-- Exact-mode primary query (server.js:769-790): date + city variants +
optional state + performer join, `take: 25`. -/
def exactQueryByPerformer (store : List StoreEvent) (d : ℤ) (cityVars : List Str)
    (stateNorm : Str) (words : List Str) : List StoreEvent :=
  (store.filter (fun e => e.dateDay == d && stateMatch stateNorm e &&
    cityMatch cityVars e && performerJoinMatch words e)).take 25

/-- Exact-mode fallback query (server.js:793-803): event-name text match,
`take: 25`. -/
def exactQueryByName (store : List StoreEvent) (d : ℤ) (cityVars : List Str)
    (stateNorm : Str) (words : List Str) : List StoreEvent :=
  (store.filter (fun e => e.dateDay == d && stateMatch stateNorm e &&
    cityMatch cityVars e && eventNameMatch words e)).take 25

/-- The exact-mode variant loop (server.js:767-814): first variant whose
primary or fallback query is non-empty wins. -/
def exactLoop (store : List StoreEvent) (d : ℤ) (cityVars : List Str)
    (stateNorm : Str) : List (List Str) → List StoreEvent
  | [] => []
  | words :: rest =>
    let r1 := exactQueryByPerformer store d cityVars stateNorm words
    let r := if r1.isEmpty then exactQueryByName store d cityVars stateNorm words else r1
    if r.isEmpty then exactLoop store d cityVars stateNorm rest else r

/-- JS truthiness of an optional string. -/
def jsTruthyStrOpt (x : Option Str) : Bool :=
  match x with
  | some t => !t.isEmpty
  | none => false

/-- `applyTimeTiebreak` (server.js:750-757). -/
def applyTimeTiebreak (time24 : Option Str) (events : List StoreEvent) :
    List StoreEvent :=
  if decide (1 < events.length) && jsTruthyStrOpt time24 then
    (let byTime := events.filter (fun e => e.time24.getD [] == time24.getD [])
     if byTime.isEmpty then events else byTime)
  else events

/-- The fallback object of a `/match` response. -/
structure Fallback where
  performer_input : Str
  performer_source : Str
  performer_slug : Option Str
  performer_links : Option PerfLinks
deriving DecidableEq, Repr

/-- A `/match` response (absent JSON fields are `none`). -/
structure MatchResponse where
  confidence : Str
  reason : Str
  «matches» : List ShapedEvent
  hint : Option Str
  fallback : Option Fallback
deriving DecidableEq, Repr

/-- The exact-mode response assembly (server.js:805-813). -/
def exactRespOf (time24 : Option Str) (events : List StoreEvent)
    (fallback : Option Fallback) : MatchResponse :=
  { confidence :=
      if (applyTimeTiebreak time24 events).length = 1 then chars "high"
      else chars "medium",
    reason :=
      if (applyTimeTiebreak time24 events).length = 1 then chars "exact_or_tiebroken"
      else chars "multiple",
    «matches» := (applyTimeTiebreak time24 events).map shapeEvent,
    hint := none,
    fallback := fallback }

/-- String comparison (code-point order), for the `time24: "asc"` ordering. -/
def strLeB : Str → Str → Bool
  | [], _ => true
  | _ :: _, [] => false
  | a :: as, b :: bs => if a < b then true else if b < a then false else strLeB as bs

/-- `orderBy: time24 asc` with SQL `NULLS LAST`. -/
def timeLeB : Option Str → Option Str → Bool
  | some a, some b => strLeB a b
  | some _, none => true
  | none, some _ => false
  | none, none => true

/-- `orderBy: [{ dateDay: "asc" }, { time24: "asc" }]`. -/
def dtLeB (a b : StoreEvent) : Bool :=
  if a.dateDay < b.dateDay then true
  else if b.dateDay < a.dateDay then false
  else timeLeB a.time24 b.time24

/-- The upcoming-mode ordering as a relation. -/
def dtLe (a b : StoreEvent) : Prop := dtLeB a b = true

instance : DecidableRel dtLe := fun a b => inferInstanceAs (Decidable (dtLeB a b = true))

/-- The store's `orderBy` result (stable by store order among ties). -/
def sortByDateTime (l : List StoreEvent) : List StoreEvent := List.insertionSort dtLe l

/-- Upcoming-mode primary query (server.js:829-852): future date + city +
optional state + no "parking" in the event name + performer join, ordered by
date then time, `take: 4`. -/
def upcomingQueryByPerformer (store : List StoreEvent) (today : ℤ)
    (cityVars : List Str) (stateNorm : Str) (words : List Str) : List StoreEvent :=
  (sortByDateTime (store.filter (fun e => stateMatch stateNorm e &&
    decide (today ≤ e.dateDay) && !containsCI e.eventName (chars "parking") &&
    cityMatch cityVars e && performerJoinMatch words e))).take 4

/-- Upcoming-mode fallback query (server.js:855-867): event-name text match
under the same constraints, ordering and cap. -/
def upcomingQueryByName (store : List StoreEvent) (today : ℤ)
    (cityVars : List Str) (stateNorm : Str) (words : List Str) : List StoreEvent :=
  (sortByDateTime (store.filter (fun e => stateMatch stateNorm e &&
    decide (today ≤ e.dateDay) && !containsCI e.eventName (chars "parking") &&
    cityMatch cityVars e && eventNameMatch words e))).take 4

/-- The upcoming-mode variant loop (server.js:828-870). -/
def upcomingLoop (store : List StoreEvent) (today : ℤ) (cityVars : List Str)
    (stateNorm : Str) : List (List Str) → List StoreEvent
  | [] => []
  | words :: rest =>
    let r1 := upcomingQueryByPerformer store today cityVars stateNorm words
    let r := if r1.isEmpty then upcomingQueryByName store today cityVars stateNorm words
      else r1
    if r.isEmpty then upcomingLoop store today cityVars stateNorm rest else r

/-- The upcoming-mode response assembly (server.js:872-890). -/
def upcomingPhase (store : List StoreEvent) (today : ℤ) (cityVars : List Str)
    (stateNorm : Str) (words : List Str) (fallback : Option Fallback) : MatchResponse :=
  if (upcomingLoop store today cityVars stateNorm
      (buildWordVariants words WvMode.upcoming)).isEmpty then
    { confidence := chars "low", reason := chars "no_upcoming_in_city",
      «matches» := [], hint := none, fallback := fallback }
  else
    { confidence := chars "medium", reason := chars "upcoming_in_city",
      «matches» := ((upcomingLoop store today cityVars stateNorm
        (buildWordVariants words WvMode.upcoming)).take 3).map shapeEvent,
      hint :=
        if 3 < (upcomingLoop store today cityVars stateNorm
            (buildWordVariants words WvMode.upcoming)).length then
          some (chars "add date for exact match")
        else none,
      fallback := fallback }

/-- `/match` after the guard: exact mode when a usable date is present,
falling through to upcoming mode. -/
def matchCore (store : List StoreEvent) (today : ℤ) (cityVars : List Str)
    (stateNorm : Str) (words : List Str) (time24 : Option Str)
    (dateDay : Option ℤ) (fallback : Option Fallback) : MatchResponse :=
  match dateDay with
  | some d =>
    match exactLoop store d cityVars stateNorm (buildWordVariants words WvMode.exact) with
    | [] => upcomingPhase store today cityVars stateNorm words fallback
    | e :: es => exactRespOf time24 (e :: es) fallback
  | none => upcomingPhase store today cityVars stateNorm words fallback

/-! ### The `/match` handler (server.js:685-894) -/

/-- The request body (all fields optional and nullable). -/
structure MatchInput where
  performer_query : Option Str
  raw_title : Option Str
  city : Option Str
  state : Option Str
  date_day : Option Str
  time_24 : Option Str
deriving DecidableEq, Repr

/-- `String(input.performer_query || "").trim() || null`. -/
def performerFromQueryOf (input : MatchInput) : Option Str :=
  jsOptTruthy (some (trimStr (input.performer_query.getD [])))

/-- `input.raw_title ? extractPerformerFromTitle(input.raw_title) : null`. -/
def performerFromTitleOf (input : MatchInput) : Option Str :=
  match jsOptTruthy input.raw_title with
  | none => none
  | some rt => extractPerformerFromTitle rt

/-- `performerPicked`: the raw pick cleaned, with the raw pick as fallback. -/
def performerPickedOf (input : MatchInput) : Option Str :=
  match performerFromQueryOf input <|> performerFromTitleOf input with
  | none => none
  | some r => some ((cleanPerformerPicked r).getD r)

/-- `performerWords`: normalized, split, stopword/year filtered. -/
def performerWordsOf (input : MatchInput) : List Str :=
  match jsOptTruthy (normText (some ((performerPickedOf input).getD []))) with
  | none => []
  | some pn => filterPerformerWords ((splitChar ' ' pn).filter (fun w => !w.isEmpty))

/-- `cityNormVariants`. -/
def cityVariantsOf (input : MatchInput) : List Str := cityVariants (input.city.getD [])

/-- `st?.stateNorm || ""`. -/
def stateNormOf (abbrToName nameToAbbr : List (Str × Str)) (input : MatchInput) : Str :=
  match normalizeState abbrToName nameToAbbr input.state with
  | some st => st.stateNorm.getD []
  | none => []

/-- `input.time_24 || null`. -/
def time24Of (input : MatchInput) : Option Str := jsOptTruthy input.time_24

/-- `input.date_day ? parseDateDayFromYMD(input.date_day) : null`. -/
def dateDayRawOf (input : MatchInput) : Option ℤ :=
  match jsOptTruthy input.date_day with
  | none => none
  | some s => parseDateDayFromYMD s

/-- A past date is treated as "no date" (server.js:727-731). -/
def resolvedDateOf (today : ℤ) (input : MatchInput) : Option ℤ :=
  match dateDayRawOf input with
  | some d => if d < today then none else some d
  | none => none

/-- The fallback object (server.js:715-725): present whenever a performer
string was picked. -/
def fallbackOf (input : MatchInput) : Option Fallback :=
  match performerPickedOf input with
  | none => none
  | some p =>
    some { performer_input := p,
           performer_source :=
             if (performerFromQueryOf input).isSome then chars "performer_query"
             else chars "raw_title",
           performer_slug := (buildPerformerLinks p).1,
           performer_links := (buildPerformerLinks p).2 }

/-- The hint of the guard response (server.js:739-740). -/
def guardHint : Str :=
  chars "Need (performer_query or raw_title) + city. date_day optional; state/time optional."

/-- The `/match` handler: guard clause, then the two-mode core.  `today` is
`todayUtcMidnight()` as a day number; the state tables are the process-wide
maps loaded at startup. -/
def matchHandler (store : List StoreEvent) (abbrToName nameToAbbr : List (Str × Str))
    (today : ℤ) (input : MatchInput) : MatchResponse :=
  if ((cityVariantsOf input).headD []).isEmpty || (performerWordsOf input).isEmpty then
    { confidence := chars "low", reason := chars "missing_required_fields",
      «matches» := [], hint := some guardHint, fallback := fallbackOf input }
  else
    matchCore store today (cityVariantsOf input)
      (stateNormOf abbrToName nameToAbbr input) (performerWordsOf input)
      (time24Of input) (resolvedDateOf today input) (fallbackOf input)

/-! ### Order properties of the comparators -/

theorem strLeB_total : ∀ a b : Str, strLeB a b = true ∨ strLeB b a = true := by
  intro a
  induction a with
  | nil => intro b; left; rfl
  | cons x xs ih =>
    intro b
    cases b with
    | nil => right; rfl
    | cons y ys =>
      by_cases hxy : x < y
      · left; simp [strLeB, hxy]
      · by_cases hyx : y < x
        · right; simp [strLeB, hyx]
        · have hx : x = y := le_antisymm (not_lt.mp hyx) (not_lt.mp hxy)
          subst hx
          rcases ih ys with h | h
          · left; simp [strLeB, lt_irrefl, h]
          · right; simp [strLeB, lt_irrefl, h]

theorem strLeB_trans : ∀ a b c : Str, strLeB a b = true → strLeB b c = true →
    strLeB a c = true := by
  intro a
  induction a with
  | nil => intro b c _ _; rfl
  | cons x xs ih =>
    intro b c hab hbc
    cases b with
    | nil => simp [strLeB] at hab
    | cons y ys =>
      cases c with
      | nil => simp [strLeB] at hbc
      | cons z zs =>
        simp only [strLeB] at hab hbc ⊢
        by_cases hxy : x < y
        · by_cases hyz : y < z
          · rw [if_pos (lt_trans hxy hyz)]
          · by_cases hzy : z < y
            · rw [if_neg hyz, if_pos hzy] at hbc
              exact absurd hbc (by simp)
            · have hyeq : y = z := le_antisymm (not_lt.mp hzy) (not_lt.mp hyz)
              subst hyeq
              rw [if_pos hxy]
        · by_cases hyx : y < x
          · rw [if_neg hxy, if_pos hyx] at hab
            exact absurd hab (by simp)
          · have hxeq : x = y := le_antisymm (not_lt.mp hyx) (not_lt.mp hxy)
            subst hxeq
            rw [if_neg hxy, if_neg hyx] at hab
            by_cases hxz : x < z
            · rw [if_pos hxz]
            · by_cases hzx : z < x
              · rw [if_neg hxz, if_pos hzx] at hbc
                exact absurd hbc (by simp)
              · have hxeq2 : x = z := le_antisymm (not_lt.mp hzx) (not_lt.mp hxz)
                subst hxeq2
                rw [if_neg hxz, if_neg hxz] at hbc ⊢
                exact ih ys zs hab hbc

theorem timeLeB_total : ∀ a b : Option Str, timeLeB a b = true ∨ timeLeB b a = true := by
  intro a b
  cases a <;> cases b <;> simp [timeLeB]
  exact strLeB_total _ _

theorem timeLeB_trans : ∀ a b c : Option Str, timeLeB a b = true → timeLeB b c = true →
    timeLeB a c = true := by
  intro a b c hab hbc
  cases a <;> cases b <;> cases c <;> simp [timeLeB] at hab hbc ⊢
  exact strLeB_trans _ _ _ hab hbc

instance : IsTotal StoreEvent dtLe := by
  constructor
  intro a b
  rw [dtLe, dtLe, dtLeB, dtLeB]
  rcases lt_trichotomy a.dateDay b.dateDay with h | h | h
  · left; simp [h]
  · rw [h]
    simp only [lt_irrefl, if_false]
    exact timeLeB_total _ _
  · right; simp [h]

instance : IsTrans StoreEvent dtLe := by
  constructor
  intro a b c hab hbc
  rw [dtLe, dtLeB] at hab hbc ⊢
  by_cases h1 : a.dateDay < b.dateDay
  · by_cases h2 : b.dateDay < c.dateDay
    · simp [lt_trans h1 h2]
    · by_cases h3 : c.dateDay < b.dateDay
      · rw [if_neg h2, if_pos h3] at hbc
        exact absurd hbc (by simp)
      · have heq : b.dateDay = c.dateDay := le_antisymm (not_lt.mp h3) (not_lt.mp h2)
        simp [heq ▸ h1]
  · by_cases h4 : b.dateDay < a.dateDay
    · rw [if_neg h1, if_pos h4] at hab
      exact absurd hab (by simp)
    · have heq : a.dateDay = b.dateDay := le_antisymm (not_lt.mp h4) (not_lt.mp h1)
      rw [if_neg h1, if_neg h4] at hab
      by_cases h2 : b.dateDay < c.dateDay
      · rw [heq]
        simp [h2]
      · by_cases h3 : c.dateDay < b.dateDay
        · rw [if_neg h2, if_pos h3] at hbc
          exact absurd hbc (by simp)
        · have heq2 : b.dateDay = c.dateDay := le_antisymm (not_lt.mp h3) (not_lt.mp h2)
          rw [if_neg h2, if_neg h3] at hbc
          rw [heq, heq2]
          simp only [lt_irrefl, if_false]
          exact timeLeB_trans _ _ _ hab hbc

theorem fracLe_total (x y : Frac) : fracLe x y = true ∨ fracLe y x = true := by
  simp only [fracLe, decide_eq_true_eq]
  exact le_total _ _

theorem fracLe_trans {x y z : Frac} (hx : 0 ≤ x.den) (hy : 0 < y.den) (hz : 0 ≤ z.den)
    (h1 : fracLe x y = true) (h2 : fracLe y z = true) : fracLe x z = true := by
  simp only [fracLe, decide_eq_true_eq] at h1 h2 ⊢
  have g1 := mul_le_mul_of_nonneg_right h1 hz
  have g2 := mul_le_mul_of_nonneg_right h2 hx
  have g3 : y.den * (x.num * z.den) ≤ y.den * (z.num * x.den) := by nlinarith [g1, g2]
  exact le_of_mul_le_mul_left g3 hy

theorem numAbsVal_den_pos (s : Str) : 0 < (numAbsVal s).den := by
  unfold numAbsVal
  split
  · positivity
  · norm_num

theorem jsNumberOfPrice_den_pos (s : Str) : 0 < (jsNumberOfPrice s).den := by
  unfold jsNumberOfPrice
  split
  · norm_num
  · split
    · exact numAbsVal_den_pos _
    · exact numAbsVal_den_pos _

theorem offerSortKey_den_pos (o : ShapedOffer) : 0 < (offerSortKey o).den :=
  jsNumberOfPrice_den_pos _

instance : IsTotal ShapedOffer offerLe := ⟨fun x y => fracLe_total (offerSortKey x) (offerSortKey y)⟩

instance : IsTrans ShapedOffer offerLe :=
  ⟨fun a b c h1 h2 => fracLe_trans (offerSortKey_den_pos a).le (offerSortKey_den_pos b)
    (offerSortKey_den_pos c).le h1 h2⟩

/-! ### Decimal digit round-trips -/

theorem digitCh_toNat (d : ℕ) (h : d < 10) : (digitCh d).toNat = 48 + d := by
  interval_cases d <;> decide

theorem isDigit_digitCh (d : ℕ) (h : d < 10) : isDigitCh (digitCh d) = true := by
  interval_cases d <;> decide

theorem digitsToNat_cons_zero (xs : Str) : digitsToNat ('0' :: xs) = digitsToNat xs := rfl

theorem digitsToNat_append_one (xs : Str) (c : Char) :
    digitsToNat (xs ++ [c]) = digitsToNat xs * 10 + (c.toNat - 48) := by
  simp [digitsToNat, List.foldl_append]

theorem natDigitsFuel_small (fuel n : ℕ) (h : n < 10) :
    natDigitsFuel fuel n = [digitCh (n % 10)] := by
  cases fuel with
  | zero => rfl
  | succ f => simp [natDigitsFuel, h]

theorem natDigitsFuel_correct : ∀ fuel n, n ≤ fuel →
    digitsToNat (natDigitsFuel fuel n) = n := by
  intro fuel
  induction fuel with
  | zero =>
    intro n hn
    have hz : n = 0 := Nat.le_zero.mp hn
    subst hz
    decide
  | succ f ih =>
    intro n hn
    by_cases h : n < 10
    · rw [natDigitsFuel_small _ _ h, Nat.mod_eq_of_lt h]
      show digitsToNat [digitCh n] = n
      simp [digitsToNat, digitCh_toNat n h]
    · simp only [natDigitsFuel, if_neg h]
      rw [digitsToNat_append_one]
      have hlt : n / 10 < n := Nat.div_lt_self (by omega) (by norm_num)
      rw [ih (n / 10) (by omega)]
      rw [digitCh_toNat (n % 10) (Nat.mod_lt _ (by norm_num))]
      omega

theorem natDigits_correct (n : ℕ) : digitsToNat (natDigits n) = n :=
  natDigitsFuel_correct n n le_rfl

theorem natDigitsFuel_digits : ∀ fuel n, ∀ c ∈ natDigitsFuel fuel n, isDigitCh c = true := by
  intro fuel
  induction fuel with
  | zero =>
    intro n c hc
    rw [List.mem_singleton.mp hc]
    exact isDigit_digitCh _ (Nat.mod_lt _ (by norm_num))
  | succ f ih =>
    intro n c hc
    by_cases h : n < 10
    · rw [natDigitsFuel_small _ _ h] at hc
      rw [List.mem_singleton.mp hc]
      exact isDigit_digitCh _ (Nat.mod_lt _ (by norm_num))
    · simp only [natDigitsFuel, if_neg h] at hc
      rcases List.mem_append.mp hc with hc | hc
      · exact ih _ c hc
      · rw [List.mem_singleton.mp hc]
        exact isDigit_digitCh _ (Nat.mod_lt _ (by norm_num))

theorem natDigitsFuel_ne_nil (fuel n : ℕ) : natDigitsFuel fuel n ≠ [] := by
  cases fuel with
  | zero => simp [natDigitsFuel]
  | succ f =>
    by_cases h : n < 10
    · simp [natDigitsFuel, h]
    · simp [natDigitsFuel, h]

theorem pad2_digits (r : ℕ) : ∀ c ∈ pad2 r, isDigitCh c = true := by
  intro c hc
  unfold pad2 at hc
  by_cases h : r < 10
  · rw [if_pos h] at hc
    rcases List.mem_cons.mp hc with hc | hc
    · subst hc; decide
    · exact natDigitsFuel_digits _ _ c hc
  · rw [if_neg h] at hc
    exact natDigitsFuel_digits _ _ c hc

theorem pad2_toNat (r : ℕ) : digitsToNat (pad2 r) = r := by
  unfold pad2
  by_cases h : r < 10
  · rw [if_pos h, digitsToNat_cons_zero]
    exact natDigits_correct r
  · rw [if_neg h]
    exact natDigits_correct r

theorem pad2_length (r : ℕ) (hr : r < 100) : (pad2 r).length = 2 := by
  unfold pad2
  by_cases h : r < 10
  · rw [if_pos h]
    rw [show natDigits r = natDigitsFuel r r from rfl, natDigitsFuel_small r r h]
    rfl
  · rw [if_neg h]
    obtain ⟨f, hf⟩ : ∃ f, r = f + 1 := ⟨r - 1, by omega⟩
    rw [show natDigits r = natDigitsFuel r r from rfl, hf]
    simp only [natDigitsFuel, if_neg (show ¬(f + 1 < 10) by omega)]
    rw [natDigitsFuel_small f ((f + 1) / 10) (by omega)]
    rfl

theorem takeWhile_append_all {p : α → Bool} {A B : List α} (h : ∀ a ∈ A, p a = true) :
    (A ++ B).takeWhile p = A ++ B.takeWhile p := by
  induction A with
  | nil => rfl
  | cons a t ih =>
    have ha := h a (List.mem_cons_self a t)
    simp only [List.cons_append, List.takeWhile_cons, ha, if_true]
    rw [ih (fun x hx => h x (List.mem_cons_of_mem a hx))]

theorem dropWhile_append_all {p : α → Bool} {A B : List α} (h : ∀ a ∈ A, p a = true) :
    (A ++ B).dropWhile p = B.dropWhile p := by
  induction A with
  | nil => rfl
  | cons a t ih =>
    have ha := h a (List.mem_cons_self a t)
    simp only [List.cons_append, List.dropWhile_cons, ha, if_true]
    exact ih (fun x hx => h x (List.mem_cons_of_mem a hx))

theorem takeWhile_all_eq {p : α → Bool} {A : List α} (h : ∀ a ∈ A, p a = true) :
    A.takeWhile p = A := by
  have := takeWhile_append_all (B := []) h
  simpa using this

/-! ### Parsing `money` output back through `Number(...)` -/

theorem numAbsVal_eq_dot {s fr : Str} (h : s.dropWhile isDigitCh = '.' :: fr) :
    numAbsVal s =
      { num := (digitsToNat (s.takeWhile isDigitCh) : ℤ) *
            (10 : ℤ) ^ (fr.takeWhile isDigitCh).length +
          (digitsToNat (fr.takeWhile isDigitCh) : ℤ),
        den := (10 : ℤ) ^ (fr.takeWhile isDigitCh).length } := by
  unfold numAbsVal
  rw [h]
  rfl

theorem jsNumberOfPrice_digits_dot (A B : Str) (hA : ∀ c ∈ A, isDigitCh c = true)
    (hAne : A ≠ []) (hB : ∀ c ∈ B, isDigitCh c = true) :
    jsNumberOfPrice (A ++ '.' :: B) =
      { num := (digitsToNat A : ℤ) * (10 : ℤ) ^ B.length + (digitsToNat B : ℤ),
        den := (10 : ℤ) ^ B.length } := by
  have hdrop : (A ++ '.' :: B).dropWhile isDigitCh = '.' :: B := by
    rw [dropWhile_append_all hA, List.dropWhile_cons,
      if_neg (by decide : ¬(isDigitCh '.' = true))]
  have htake : (A ++ '.' :: B).takeWhile isDigitCh = A := by
    rw [takeWhile_append_all hA, List.takeWhile_cons,
      if_neg (by decide : ¬(isDigitCh '.' = true)), List.append_nil]
  have hBt : B.takeWhile isDigitCh = B := takeWhile_all_eq hB
  obtain ⟨a, A', rfl⟩ : ∃ a A', A = a :: A' := by
    cases A with
    | nil => exact absurd rfl hAne
    | cons a t => exact ⟨a, t, rfl⟩
  have ha : isDigitCh a = true := hA a (List.mem_cons_self a A')
  have hane : ¬(a = '-') := by
    intro hh
    subst hh
    exact absurd ha (by decide)
  simp only [List.cons_append] at htake hdrop ⊢
  simp only [jsNumberOfPrice]
  rw [if_neg hane, numAbsVal_eq_dot hdrop, htake, hBt]

theorem money_nonneg (e : ℤ) (he : 0 ≤ e) :
    money (some e) = some (natDigits (e.natAbs / 100) ++ '.' :: pad2 (e.natAbs % 100)) := by
  simp [money, not_lt.mpr he]

theorem jsNumberOfPrice_money (e : ℤ) (he : 0 ≤ e) :
    jsNumberOfPrice (natDigits (e.natAbs / 100) ++ '.' :: pad2 (e.natAbs % 100)) =
      { num := e, den := 100 } := by
  have hr : e.natAbs % 100 < 100 := Nat.mod_lt _ (by norm_num)
  rw [jsNumberOfPrice_digits_dot (natDigits (e.natAbs / 100)) (pad2 (e.natAbs % 100))
    (fun c hc => natDigitsFuel_digits _ _ c hc) (natDigitsFuel_ne_nil _ _) (pad2_digits _)]
  rw [pad2_length _ hr, natDigits_correct, pad2_toNat,
    (show ((10 : ℤ) ^ 2) = 100 by norm_num)]
  congr 1
  omega

/-! ### Offer sort keys of shaped offers -/

theorem estAfterPromo_none_promo (m : ℤ) : estAfterPromo (some m) none = some m := by
  simp only [estAfterPromo, Option.getD_none, jsRoundDiv]
  congr 1
  omega

theorem offerKey_of_est {o : StoreOffer} {e : ℤ}
    (hest : estAfterPromo o.priceMin o.promoPercent = some e) (he : 0 ≤ e) :
    offerSortKey (shapeOffer o) = { num := e, den := 100 } := by
  simp only [offerSortKey, shapeOffer]
  rw [hest, money_nonneg e he, Option.getD_some]
  exact jsNumberOfPrice_money e he

theorem offerKey_priceless {o : StoreOffer} (h : o.priceMin = none) :
    offerSortKey (shapeOffer o) = { num := 999999, den := 1 } := by
  simp only [offerSortKey, shapeOffer, h, estAfterPromo, money, Option.getD_none]
  decide

theorem sortOffers_pair (x y : ShapedOffer) :
    sortOffers [x, y] = if offerLe x y then [x, y] else [y, x] := by
  simp [sortOffers, List.insertionSort, List.orderedInsert]

/-! ### C9: offer ordering inside a shaped event -/

/-- C9 counterexample.  First conjunct: an offer with no price at all keys as
`Number("999999")` (999999 dollars) and therefore sorts *before* a priced
offer of 1 000 000.00 dollars — priceless offers do not always sort last.
Second conjunct: with identical `price_min = 0`, the `promo_percent = 20`
offer ties with the `promo_percent = null` offer (both estimates are
`"0.00"`), and the stable sort keeps the null-promo offer first. -/
theorem C9_offer_sort_counterexample :
    ((shapeEvent
        { id := chars "e1", eventName := none, dateDay := 0, time24 := none,
          city := none, cityNorm := none, state := none, stateNorm := none,
          venue := none, performers := [],
          offers :=
            [{ source := chars "nopr", url := chars "u1", ticketsYn := none,
               priceMin := none, priceMax := none, promoPercent := none },
             { source := chars "big", url := chars "u2", ticketsYn := none,
               priceMin := some 100000000, priceMax := none,
               promoPercent := none }] }).offers.map (fun o => o.source) =
      [chars "nopr", chars "big"]) ∧
    ((shapeEvent
        { id := chars "e2", eventName := none, dateDay := 0, time24 := none,
          city := none, cityNorm := none, state := none, stateNorm := none,
          venue := none, performers := [],
          offers :=
            [{ source := chars "nullpromo", url := chars "u3", ticketsYn := none,
               priceMin := some 0, priceMax := none, promoPercent := none },
             { source := chars "promo20", url := chars "u4", ticketsYn := none,
               priceMin := some 0, priceMax := none,
               promoPercent := some 20 }] }).offers.map (fun o => o.source) =
      [chars "nullpromo", chars "promo20"]) := by
  decide

/-- C9 (amended): a shaped event's offers are the stable ascending sort of
its offers by the key `Number(est_after_promo ?? base_price_min ?? "999999")`
(so an offer with neither price keys as 999999 dollars, which is not always
last); for identical `price_min = p` with `3 ≤ p`, the `promo_percent = 20`
offer keys `round(0.8 p)` strictly below the null-promo key `p` and sorts
first from either input order. -/
theorem C9_offer_sort (e : StoreEvent) (o1 o2 o3 : StoreOffer) (p : ℤ)
    (hp : 3 ≤ p)
    (h1p : o1.priceMin = some p) (h1pp : o1.promoPercent = some 20)
    (h2p : o2.priceMin = some p) (h2pp : o2.promoPercent = none)
    (h3 : o3.priceMin = none) :
    (shapeEvent e).offers = sortOffers (e.offers.map shapeOffer) ∧
    List.Sorted offerLe (shapeEvent e).offers ∧
    List.Perm (shapeEvent e).offers (e.offers.map shapeOffer) ∧
    offerSortKey (shapeOffer o3) = { num := 999999, den := 1 } ∧
    offerSortKey (shapeOffer o1) = { num := (160 * p + 100) / 200, den := 100 } ∧
    offerSortKey (shapeOffer o2) = { num := p, den := 100 } ∧
    sortOffers [shapeOffer o1, shapeOffer o2] = [shapeOffer o1, shapeOffer o2] ∧
    sortOffers [shapeOffer o2, shapeOffer o1] = [shapeOffer o1, shapeOffer o2] := by
  have hs : (shapeEvent e).offers = sortOffers (e.offers.map shapeOffer) := rfl
  have he1 : estAfterPromo o1.priceMin o1.promoPercent = some ((160 * p + 100) / 200) := by
    rw [h1p, h1pp]
    simp only [estAfterPromo, Option.getD_some, jsRoundDiv]
    congr 1
    omega
  have hk1 : offerSortKey (shapeOffer o1) = { num := (160 * p + 100) / 200, den := 100 } :=
    offerKey_of_est he1 (by omega)
  have he2 : estAfterPromo o2.priceMin o2.promoPercent = some p := by
    rw [h2p, h2pp]
    exact estAfterPromo_none_promo p
  have hk2 : offerSortKey (shapeOffer o2) = { num := p, den := 100 } :=
    offerKey_of_est he2 (by omega)
  have hle : offerLe (shapeOffer o1) (shapeOffer o2) := by
    unfold offerLe
    rw [hk1, hk2]
    simp only [fracLe, decide_eq_true_eq]
    omega
  have hnle : ¬ offerLe (shapeOffer o2) (shapeOffer o1) := by
    unfold offerLe
    rw [hk2, hk1]
    simp only [fracLe, decide_eq_true_eq]
    omega
  refine ⟨hs, ?_, ?_, offerKey_priceless h3, hk1, hk2, ?_, ?_⟩
  · rw [hs]
    exact List.sorted_insertionSort offerLe _
  · rw [hs]
    exact List.perm_insertionSort offerLe _
  · rw [sortOffers_pair, if_pos hle]
  · rw [sortOffers_pair, if_neg hnle]

/-- C9 witness: the amended ordering facts instantiated at `p = 1000`
(a 10.00-dollar price), with a promo-20 offer, a null-promo offer and a
priceless offer on a concrete event. -/
theorem C9_offer_sort_witness :
    (3 : ℤ) ≤ 1000 ∧
    ((shapeEvent
        { id := chars "w", eventName := none, dateDay := 0, time24 := none,
          city := none, cityNorm := none, state := none, stateNorm := none,
          venue := none, performers := [], offers := [] }).offers =
      sortOffers
      (({ id := chars "w", eventName := none, dateDay := 0,
          time24 := none, city := none, cityNorm := none, state := none,
          stateNorm := none, venue := none, performers := [],
          offers := [] } : StoreEvent).offers.map shapeOffer) ∧
     List.Sorted offerLe
       (shapeEvent
         { id := chars "w", eventName := none, dateDay := 0, time24 := none,
           city := none, cityNorm := none, state := none, stateNorm := none,
           venue := none, performers := [], offers := [] }).offers ∧
     List.Perm
       (shapeEvent
         { id := chars "w", eventName := none, dateDay := 0, time24 := none,
           city := none, cityNorm := none, state := none, stateNorm := none,
           venue := none, performers := [], offers := [] }).offers
       (({ id := chars "w", eventName := none, dateDay := 0, time24 := none,
           city := none, cityNorm := none, state := none, stateNorm := none,
           venue := none, performers := [],
           offers := [] } : StoreEvent).offers.map shapeOffer) ∧
     offerSortKey (shapeOffer
       { source := chars "s3", url := chars "u3", ticketsYn := none,
         priceMin := none, priceMax := none, promoPercent := none }) =
       { num := 999999, den := 1 } ∧
     offerSortKey (shapeOffer
       { source := chars "s1", url := chars "u1", ticketsYn := none,
         priceMin := some 1000, priceMax := none, promoPercent := some 20 }) =
       { num := (160 * 1000 + 100) / 200, den := 100 } ∧
     offerSortKey (shapeOffer
       { source := chars "s2", url := chars "u2", ticketsYn := none,
         priceMin := some 1000, priceMax := none, promoPercent := none }) =
       { num := 1000, den := 100 } ∧
     sortOffers
       [shapeOffer
         { source := chars "s1", url := chars "u1", ticketsYn := none,
           priceMin := some 1000, priceMax := none, promoPercent := some 20 },
        shapeOffer
         { source := chars "s2", url := chars "u2", ticketsYn := none,
           priceMin := some 1000, priceMax := none, promoPercent := none }] =
       [shapeOffer
         { source := chars "s1", url := chars "u1", ticketsYn := none,
           priceMin := some 1000, priceMax := none, promoPercent := some 20 },
        shapeOffer
         { source := chars "s2", url := chars "u2", ticketsYn := none,
           priceMin := some 1000, priceMax := none, promoPercent := none }] ∧
     sortOffers
       [shapeOffer
         { source := chars "s2", url := chars "u2", ticketsYn := none,
           priceMin := some 1000, priceMax := none, promoPercent := none },
        shapeOffer
         { source := chars "s1", url := chars "u1", ticketsYn := none,
           priceMin := some 1000, priceMax := none, promoPercent := some 20 }] =
       [shapeOffer
         { source := chars "s1", url := chars "u1", ticketsYn := none,
           priceMin := some 1000, priceMax := none, promoPercent := some 20 },
        shapeOffer
         { source := chars "s2", url := chars "u2", ticketsYn := none,
           priceMin := some 1000, priceMax := none, promoPercent := none }]) :=
  ⟨by decide,
   C9_offer_sort
     { id := chars "w", eventName := none, dateDay := 0, time24 := none,
       city := none, cityNorm := none, state := none, stateNorm := none,
       venue := none, performers := [], offers := [] }
     { source := chars "s1", url := chars "u1", ticketsYn := none,
       priceMin := some 1000, priceMax := none, promoPercent := some 20 }
     { source := chars "s2", url := chars "u2", ticketsYn := none,
       priceMin := some 1000, priceMax := none, promoPercent := none }
     { source := chars "s3", url := chars "u3", ticketsYn := none,
       priceMin := none, priceMax := none, promoPercent := none }
     1000 (by decide) rfl rfl rfl rfl rfl⟩

/-! ### C1: exact-mode time tiebreak -/

/-- A store event at 19:00 (for concrete tiebreak instances). -/
def tbEvA : StoreEvent :=
  { id := chars "a", eventName := none, dateDay := 0,
    time24 := some (chars "19:00"), city := none, cityNorm := none,
    state := none, stateNorm := none, venue := none, performers := [],
    offers := [] }

/-- A store event at 21:00 (for concrete tiebreak instances). -/
def tbEvB : StoreEvent :=
  { id := chars "b", eventName := none, dateDay := 0,
    time24 := some (chars "21:00"), city := none, cityNorm := none,
    state := none, stateNorm := none, venue := none, performers := [],
    offers := [] }

/-- C1: with more than one exact hit and a truthy input time, the tiebreak
narrows to events whose stored `time24` equals the input (keeping the full
set if the narrowing is empty), the response's matches are the shaped
tiebroken set, and the response is `high`/`exact_or_tiebroken` exactly when
one event remains, else `medium`/`multiple`. -/
theorem C1_exact_time_tiebreak (time24 : Option Str) (events : List StoreEvent)
    (fallback : Option Fallback)
    (hlen : 1 < events.length) (ht : jsTruthyStrOpt time24 = true) :
    applyTimeTiebreak time24 events =
      (if (events.filter (fun e => e.time24.getD [] == time24.getD [])).isEmpty
       then events
       else events.filter (fun e => e.time24.getD [] == time24.getD [])) ∧
    (exactRespOf time24 events fallback).«matches» =
      (applyTimeTiebreak time24 events).map shapeEvent ∧
    (((exactRespOf time24 events fallback).confidence = chars "high" ∧
       (exactRespOf time24 events fallback).reason = chars "exact_or_tiebroken") ↔
      (applyTimeTiebreak time24 events).length = 1) ∧
    (((exactRespOf time24 events fallback).confidence = chars "medium" ∧
       (exactRespOf time24 events fallback).reason = chars "multiple") ↔
      (applyTimeTiebreak time24 events).length ≠ 1) := by
  have hcond : (decide (1 < events.length) && jsTruthyStrOpt time24) = true := by
    simp [hlen, ht]
  refine ⟨?_, rfl, ?_, ?_⟩
  · unfold applyTimeTiebreak
    rw [if_pos hcond]
  · by_cases h1 : (applyTimeTiebreak time24 events).length = 1
    · simp only [exactRespOf, if_pos h1]
      simp [h1]
    · simp only [exactRespOf, if_neg h1]
      constructor
      · rintro ⟨hc, -⟩
        exact absurd hc (by decide)
      · intro hh
        exact absurd hh h1
  · by_cases h1 : (applyTimeTiebreak time24 events).length = 1
    · simp only [exactRespOf, if_pos h1]
      constructor
      · rintro ⟨hc, -⟩
        exact absurd hc (by decide)
      · intro hh
        exact absurd h1 hh
    · simp only [exactRespOf, if_neg h1]
      simp [h1]

/-- C1 witness: two events at 19:00 and 21:00 with input time `"19:00"`. -/
theorem C1_exact_time_tiebreak_witness :
    1 < [tbEvA, tbEvB].length ∧
    jsTruthyStrOpt (some (chars "19:00")) = true ∧
    (applyTimeTiebreak (some (chars "19:00")) [tbEvA, tbEvB] =
      (if ([tbEvA, tbEvB].filter
            (fun e => e.time24.getD [] == (some (chars "19:00")).getD [])).isEmpty
       then [tbEvA, tbEvB]
       else [tbEvA, tbEvB].filter
            (fun e => e.time24.getD [] == (some (chars "19:00")).getD [])) ∧
     (exactRespOf (some (chars "19:00")) [tbEvA, tbEvB] none).«matches» =
       (applyTimeTiebreak (some (chars "19:00")) [tbEvA, tbEvB]).map shapeEvent ∧
     (((exactRespOf (some (chars "19:00")) [tbEvA, tbEvB] none).confidence = chars "high" ∧
        (exactRespOf (some (chars "19:00")) [tbEvA, tbEvB] none).reason =
          chars "exact_or_tiebroken") ↔
       (applyTimeTiebreak (some (chars "19:00")) [tbEvA, tbEvB]).length = 1) ∧
     (((exactRespOf (some (chars "19:00")) [tbEvA, tbEvB] none).confidence = chars "medium" ∧
        (exactRespOf (some (chars "19:00")) [tbEvA, tbEvB] none).reason = chars "multiple") ↔
       (applyTimeTiebreak (some (chars "19:00")) [tbEvA, tbEvB]).length ≠ 1)) :=
  ⟨by decide, by decide,
   C1_exact_time_tiebreak (some (chars "19:00")) [tbEvA, tbEvB] none
     (by decide) (by decide)⟩

/-! ### C2: upcoming-mode caps, ordering and responses -/

/-- An upcoming Austin event for the performer "zamrock" on day `d`. -/
def upEv (d : ℤ) : StoreEvent :=
  { id := chars "e", eventName := none, dateDay := d, time24 := none,
    city := some (chars "Austin"), cityNorm := some (chars "austin"),
    state := none, stateNorm := none, venue := none,
    performers := [{ name := some (chars "Zamrock"),
                     performerNorm := some (chars "zamrock") }],
    offers := [] }

/-- Five qualifying upcoming events (for concrete upcoming-mode instances). -/
def upStore : List StoreEvent :=
  [upEv 20740, upEv 20741, upEv 20742, upEv 20743, upEv 20744]

/-- C2: each upcoming-mode query returns at most 4 events sorted by date
then time; when the winning variant retrieved more than 3, the response is
`medium`/`upcoming_in_city` with exactly the first 3 shaped matches and the
add-a-date hint; when no variant retrieved anything, the response is
`low`/`no_upcoming_in_city` with no matches and no hint. -/
theorem C2_upcoming_response (store : List StoreEvent) (today : ℤ)
    (cityVars : List Str) (stateNorm : Str) (words ws : List Str)
    (fallback : Option Fallback) :
    (upcomingQueryByPerformer store today cityVars stateNorm ws).length ≤ 4 ∧
    (upcomingQueryByName store today cityVars stateNorm ws).length ≤ 4 ∧
    List.Sorted dtLe (upcomingQueryByPerformer store today cityVars stateNorm ws) ∧
    List.Sorted dtLe (upcomingQueryByName store today cityVars stateNorm ws) ∧
    (3 < (upcomingLoop store today cityVars stateNorm
        (buildWordVariants words WvMode.upcoming)).length →
      upcomingPhase store today cityVars stateNorm words fallback =
        { confidence := chars "medium", reason := chars "upcoming_in_city",
          «matches» := ((upcomingLoop store today cityVars stateNorm
            (buildWordVariants words WvMode.upcoming)).take 3).map shapeEvent,
          hint := some (chars "add date for exact match"),
          fallback := fallback } ∧
      (upcomingPhase store today cityVars stateNorm words fallback).«matches».length = 3) ∧
    (upcomingLoop store today cityVars stateNorm
        (buildWordVariants words WvMode.upcoming) = [] →
      upcomingPhase store today cityVars stateNorm words fallback =
        { confidence := chars "low", reason := chars "no_upcoming_in_city",
          «matches» := [], hint := none, fallback := fallback }) := by
  refine ⟨List.length_take_le _ _, List.length_take_le _ _, ?_, ?_, ?_, ?_⟩
  · exact (List.sorted_insertionSort dtLe _).sublist (List.take_sublist _ _)
  · exact (List.sorted_insertionSort dtLe _).sublist (List.take_sublist _ _)
  · intro h3
    have hne : upcomingLoop store today cityVars stateNorm
        (buildWordVariants words WvMode.upcoming) ≠ [] := by
      intro h0
      rw [h0] at h3
      exact absurd h3 (by decide)
    have hbool : ¬((upcomingLoop store today cityVars stateNorm
        (buildWordVariants words WvMode.upcoming)).isEmpty = true) := by
      simpa [List.isEmpty_iff] using hne
    constructor
    · unfold upcomingPhase
      rw [if_neg hbool, if_pos h3]
    · unfold upcomingPhase
      rw [if_neg hbool]
      simp only [List.length_map, List.length_take]
      omega
  · intro h0
    unfold upcomingPhase
    rw [if_pos (by simp [List.isEmpty_iff, h0])]

/-- C2 witness: a store with 5 qualifying events (capped to 4, 3 returned,
hint attached) and the empty store (low/`no_upcoming_in_city`). -/
theorem C2_upcoming_response_witness :
    3 < (upcomingLoop upStore 20737 [chars "austin"] []
        (buildWordVariants [chars "zamrock"] WvMode.upcoming)).length ∧
    (upcomingPhase upStore 20737 [chars "austin"] [] [chars "zamrock"] none =
      { confidence := chars "medium", reason := chars "upcoming_in_city",
        «matches» := ((upcomingLoop upStore 20737 [chars "austin"] []
          (buildWordVariants [chars "zamrock"] WvMode.upcoming)).take 3).map shapeEvent,
        hint := some (chars "add date for exact match"),
        fallback := none } ∧
      (upcomingPhase upStore 20737 [chars "austin"] [] [chars "zamrock"]
        none).«matches».length = 3) ∧
    (upcomingQueryByPerformer upStore 20737 [chars "austin"] []
      [chars "zamrock"]).length ≤ 4 ∧
    List.Sorted dtLe (upcomingQueryByPerformer upStore 20737 [chars "austin"] []
      [chars "zamrock"]) ∧
    upcomingLoop ([] : List StoreEvent) 20737 [chars "austin"] []
        (buildWordVariants [chars "zamrock"] WvMode.upcoming) = [] ∧
    upcomingPhase ([] : List StoreEvent) 20737 [chars "austin"] []
        [chars "zamrock"] none =
      { confidence := chars "low", reason := chars "no_upcoming_in_city",
        «matches» := [], hint := none, fallback := none } := by
  have h5 := C2_upcoming_response upStore 20737 [chars "austin"] []
    [chars "zamrock"] [chars "zamrock"] none
  have h0 := C2_upcoming_response ([] : List StoreEvent) 20737 [chars "austin"] []
    [chars "zamrock"] [chars "zamrock"] none
  refine ⟨by decide, h5.2.2.2.2.1 (by decide), h5.1, h5.2.2.1, by decide,
    h0.2.2.2.2.2 (by decide)⟩

/-! ### C3: a past date behaves as no date -/

/-- A request with a past `date_day` (for concrete instances). -/
def pastIn : MatchInput :=
  { performer_query := some (chars "Zamrock"), raw_title := none,
    city := some (chars "Austin"), state := none,
    date_day := some (chars "2020-01-01"), time_24 := none }

/-- C3: when the request's `date_day` parses to a day strictly before
today's UTC midnight, the handler's response equals the response to the
identical request with no `date_day` (exact mode is skipped in both). -/
theorem C3_past_date_no_date (store : List StoreEvent)
    (abbrToName nameToAbbr : List (Str × Str)) (today : ℤ) (input : MatchInput)
    (d : ℤ) (hd : dateDayRawOf input = some d) (hlt : d < today) :
    matchHandler store abbrToName nameToAbbr today input =
      matchHandler store abbrToName nameToAbbr today
        { input with date_day := none } := by
  have h1 : resolvedDateOf today input = none := by
    unfold resolvedDateOf
    rw [hd]
    simp [hlt]
  have h2 : resolvedDateOf today { input with date_day := none } = none := rfl
  unfold matchHandler
  rw [h1, h2]
  rfl

/-- C3 witness: `date_day = "2020-01-01"` (day 18262) against today
2026-10-11 (day 20737). -/
theorem C3_past_date_no_date_witness :
    dateDayRawOf pastIn = some 18262 ∧ (18262 : ℤ) < 20737 ∧
    matchHandler [] [] [] 20737 pastIn =
      matchHandler [] [] [] 20737 { pastIn with date_day := none } :=
  ⟨by decide, by decide,
   C3_past_date_no_date [] [] [] 20737 pastIn 18262 (by decide) (by decide)⟩

/-! ### C4: the missing-required-fields guard -/

/-- A request with a performer but no usable city (for concrete instances). -/
def noCityIn : MatchInput :=
  { performer_query := some (chars "Zamrock"), raw_title := none, city := none,
    state := none, date_day := none, time_24 := none }

/-- C4 counterexample: with `performer_query = "'''"` and a valid city the
guard fires (the tokens normalize away), a fallback object is attached
because a performer string was picked, but its `performer_links` is `null` —
the browse links are not always present when a performer was picked. -/
theorem C4_guard_counterexample :
    (matchHandler [] [] [] 20737
        { performer_query := some (chars "'''"), raw_title := none,
          city := some (chars "Austin"), state := none, date_day := none,
          time_24 := none }).reason = chars "missing_required_fields" ∧
    performerPickedOf
        { performer_query := some (chars "'''"), raw_title := none,
          city := some (chars "Austin"), state := none, date_day := none,
          time_24 := none } = some (chars "'''") ∧
    ((matchHandler [] [] [] 20737
        { performer_query := some (chars "'''"), raw_title := none,
          city := some (chars "Austin"), state := none, date_day := none,
          time_24 := none }).fallback.map
      (fun f => f.performer_links)) = some none := by
  decide

/-- C4 (amended): when the head city variant is empty or the performer token
list is empty, the handler answers `low`/`missing_required_fields` with no
matches and no store involvement; the fallback object is attached exactly
when a performer string was picked, carrying `buildPerformerLinks`' slug and
links — either of which may be `null` for degenerate names. -/
theorem C4_guard_short_circuit (store : List StoreEvent)
    (abbrToName nameToAbbr : List (Str × Str)) (today : ℤ) (input : MatchInput)
    (hg : (((cityVariantsOf input).headD []).isEmpty
        || (performerWordsOf input).isEmpty) = true) :
    matchHandler store abbrToName nameToAbbr today input =
      { confidence := chars "low", reason := chars "missing_required_fields",
        «matches» := [], hint := some guardHint, fallback := fallbackOf input } ∧
    (fallbackOf input).isSome = (performerPickedOf input).isSome ∧
    fallbackOf input = (performerPickedOf input).map
      (fun p =>
        { performer_input := p,
          performer_source :=
            if (performerFromQueryOf input).isSome then chars "performer_query"
            else chars "raw_title",
          performer_slug := (buildPerformerLinks p).1,
          performer_links := (buildPerformerLinks p).2 }) := by
  refine ⟨?_, ?_, ?_⟩
  · unfold matchHandler
    rw [if_pos hg]
  · cases hpk : performerPickedOf input with
    | none => simp [fallbackOf, hpk]
    | some p => simp [fallbackOf, hpk]
  · cases hpk : performerPickedOf input with
    | none => simp [fallbackOf, hpk]
    | some p => simp [fallbackOf, hpk]

/-- C4 witness: a performer with no city input. -/
theorem C4_guard_short_circuit_witness :
    (((cityVariantsOf noCityIn).headD []).isEmpty
        || (performerWordsOf noCityIn).isEmpty) = true ∧
    (matchHandler [] [] [] 20737 noCityIn =
      { confidence := chars "low", reason := chars "missing_required_fields",
        «matches» := [], hint := some guardHint, fallback := fallbackOf noCityIn } ∧
     (fallbackOf noCityIn).isSome = (performerPickedOf noCityIn).isSome ∧
     fallbackOf noCityIn = (performerPickedOf noCityIn).map
      (fun p =>
        { performer_input := p,
          performer_source :=
            if (performerFromQueryOf noCityIn).isSome then chars "performer_query"
            else chars "raw_title",
          performer_slug := (buildPerformerLinks p).1,
          performer_links := (buildPerformerLinks p).2 })) :=
  ⟨by decide, C4_guard_short_circuit [] [] [] 20737 noCityIn (by decide)⟩

/-! ### C10: the undocumented exact-mode cap of 25 -/

theorem applyTimeTiebreak_length_le (t : Option Str) (evs : List StoreEvent) :
    (applyTimeTiebreak t evs).length ≤ evs.length := by
  unfold applyTimeTiebreak
  by_cases h : (decide (1 < evs.length) && jsTruthyStrOpt t) = true
  · rw [if_pos h]
    show (if (evs.filter (fun e => e.time24.getD [] == t.getD [])).isEmpty
          then evs
          else evs.filter (fun e => e.time24.getD [] == t.getD [])).length ≤ evs.length
    split_ifs
    · exact le_rfl
    · exact List.length_filter_le _ _
  · rw [if_neg h]

theorem exactLoop_length_le (store : List StoreEvent) (d : ℤ) (cv : List Str)
    (sn : Str) (l : List (List Str)) : (exactLoop store d cv sn l).length ≤ 25 := by
  induction l with
  | nil => simp [exactLoop]
  | cons ws rest ih =>
    by_cases h1 : (exactQueryByPerformer store d cv sn ws).isEmpty
    · by_cases h2 : (exactQueryByName store d cv sn ws).isEmpty
      · simpa [exactLoop, h1, h2] using ih
      · have hstep : exactLoop store d cv sn (ws :: rest) =
            exactQueryByName store d cv sn ws := by
          simp [exactLoop, h1, h2]
        rw [hstep]
        exact List.length_take_le _ _
    · have hstep : exactLoop store d cv sn (ws :: rest) =
          exactQueryByPerformer store d cv sn ws := by
        simp [exactLoop, h1]
      rw [hstep]
      exact List.length_take_le _ _

theorem upcomingPhase_reason_ne (store : List StoreEvent) (today : ℤ) (cv : List Str)
    (sn : Str) (w : List Str) (fb : Option Fallback) :
    (upcomingPhase store today cv sn w fb).reason ≠ chars "exact_or_tiebroken" ∧
    (upcomingPhase store today cv sn w fb).reason ≠ chars "multiple" := by
  unfold upcomingPhase
  split_ifs
  · exact ⟨show ¬(chars "no_upcoming_in_city" = chars "exact_or_tiebroken") by decide,
      show ¬(chars "no_upcoming_in_city" = chars "multiple") by decide⟩
  · exact ⟨show ¬(chars "upcoming_in_city" = chars "exact_or_tiebroken") by decide,
      show ¬(chars "upcoming_in_city" = chars "multiple") by decide⟩
  · exact ⟨show ¬(chars "upcoming_in_city" = chars "exact_or_tiebroken") by decide,
      show ¬(chars "upcoming_in_city" = chars "multiple") by decide⟩

/-- An exact-mode Austin event for "zamrock" on day 20740 with id `i`. -/
def exEv (i : Str) : StoreEvent :=
  { id := i, eventName := none, dateDay := 20740, time24 := none,
    city := some (chars "Austin"), cityNorm := some (chars "austin"),
    state := none, stateNorm := none, venue := none,
    performers := [{ name := some (chars "Zamrock"),
                     performerNorm := some (chars "zamrock") }],
    offers := [] }

/-- Two exact-mode hits (for concrete instances). -/
def exStore : List StoreEvent := [exEv (chars "a"), exEv (chars "b")]

/-- A request that reaches exact mode on day 20740 (for concrete instances). -/
def exIn : MatchInput :=
  { performer_query := some (chars "Zamrock"), raw_title := none,
    city := some (chars "Austin"), state := none,
    date_day := some (chars "2026-10-14"), time_24 := none }

/-- C10: both exact-mode store queries retrieve at most 25 events, and any
response whose reason is `exact_or_tiebroken` or `multiple` (the exact-mode
reasons) carries at most 25 matches — a cap the spec leaves unstated. -/
theorem C10_exact_cap (store : List StoreEvent)
    (abbrToName nameToAbbr : List (Str × Str)) (today d : ℤ)
    (cityVars : List Str) (stateNorm : Str) (ws : List Str) (input : MatchInput) :
    (exactQueryByPerformer store d cityVars stateNorm ws).length ≤ 25 ∧
    (exactQueryByName store d cityVars stateNorm ws).length ≤ 25 ∧
    ((matchHandler store abbrToName nameToAbbr today input).reason =
        chars "exact_or_tiebroken" ∨
      (matchHandler store abbrToName nameToAbbr today input).reason =
        chars "multiple" →
      (matchHandler store abbrToName nameToAbbr today input).«matches».length ≤ 25) := by
  refine ⟨List.length_take_le _ _, List.length_take_le _ _, ?_⟩
  unfold matchHandler
  by_cases hg : (((cityVariantsOf input).headD []).isEmpty
      || (performerWordsOf input).isEmpty) = true
  · rw [if_pos hg]
    rintro (h | h)
    · exact absurd
        (show chars "missing_required_fields" = chars "exact_or_tiebroken" from h)
        (by decide)
    · exact absurd
        (show chars "missing_required_fields" = chars "multiple" from h)
        (by decide)
  · rw [if_neg hg]
    cases hrd : resolvedDateOf today input with
    | none =>
      rintro (h | h)
      · exact absurd h (upcomingPhase_reason_ne store today (cityVariantsOf input)
          (stateNormOf abbrToName nameToAbbr input) (performerWordsOf input)
          (fallbackOf input)).1
      · exact absurd h (upcomingPhase_reason_ne store today (cityVariantsOf input)
          (stateNormOf abbrToName nameToAbbr input) (performerWordsOf input)
          (fallbackOf input)).2
    | some dd =>
      cases hL : exactLoop store dd (cityVariantsOf input)
          (stateNormOf abbrToName nameToAbbr input)
          (buildWordVariants (performerWordsOf input) WvMode.exact) with
      | nil =>
        have hmc : matchCore store today (cityVariantsOf input)
            (stateNormOf abbrToName nameToAbbr input) (performerWordsOf input)
            (time24Of input) (some dd) (fallbackOf input) =
            upcomingPhase store today (cityVariantsOf input)
              (stateNormOf abbrToName nameToAbbr input) (performerWordsOf input)
              (fallbackOf input) := by
          simp only [matchCore]
          rw [hL]
        rw [hmc]
        rintro (h | h)
        · exact absurd h (upcomingPhase_reason_ne store today (cityVariantsOf input)
            (stateNormOf abbrToName nameToAbbr input) (performerWordsOf input)
            (fallbackOf input)).1
        · exact absurd h (upcomingPhase_reason_ne store today (cityVariantsOf input)
            (stateNormOf abbrToName nameToAbbr input) (performerWordsOf input)
            (fallbackOf input)).2
      | cons e es =>
        have hmc : matchCore store today (cityVariantsOf input)
            (stateNormOf abbrToName nameToAbbr input) (performerWordsOf input)
            (time24Of input) (some dd) (fallbackOf input) =
            exactRespOf (time24Of input) (e :: es) (fallbackOf input) := by
          simp only [matchCore]
          rw [hL]
        rw [hmc]
        intro h
        show ((applyTimeTiebreak (time24Of input) (e :: es)).map shapeEvent).length ≤ 25
        rw [List.length_map]
        calc (applyTimeTiebreak (time24Of input) (e :: es)).length
            ≤ (e :: es).length := applyTimeTiebreak_length_le _ _
          _ ≤ 25 := by
              rw [← hL]
              exact exactLoop_length_le _ _ _ _ _

set_option maxHeartbeats 1600000 in
/-- C10 witness: two same-day hits give reason `multiple` with 2 ≤ 25
matches; the concrete queries obey the cap. -/
theorem C10_exact_cap_witness :
    (matchHandler exStore [] [] 20737 exIn).reason = chars "multiple" ∧
    (exactQueryByPerformer exStore 20740 [chars "austin"] []
      [chars "zamrock"]).length ≤ 25 ∧
    (exactQueryByName exStore 20740 [chars "austin"] []
      [chars "zamrock"]).length ≤ 25 ∧
    (matchHandler exStore [] [] 20737 exIn).«matches».length ≤ 25 := by
  have h := C10_exact_cap exStore [] [] 20737 20740 [chars "austin"] []
    [chars "zamrock"] exIn
  exact ⟨by decide, h.1, h.2.1, h.2.2 (Or.inr (by decide))⟩
